import Mathlib

/-!
Verification of the serial-data test-waveform generation engine
(`TestWaveformSource.cpp` of libscopehal).

The C++ code is shallowly embedded: `float`/`double` arithmetic on phases
and voltages is modelled by exact rational arithmetic (`ℚ`); all claimed
sample values are exactly representable, and the control flow (comparisons
against `0`) is sign logic that agrees with the float computation on the
concrete inputs considered.  Machine integers are modelled as `Nat`/`Int`
with explicit reductions `% 2^32` / `% 2^64` where the C++ width matters.
The Gaussian noise source (a `normal_distribution` driven by the engine's
seeded RNG) is modelled as a standard-deviation factor times a
deterministic unit-draw stream `g : ℕ → ℚ` produced by the seeded
generator, one draw per loop iteration, in loop order.
-/

/-! ### PRBS31 linear-feedback shift register (`GeneratePRBS31`, lines 196-201)

`uint32_t next = ((prbs >> 30) ^ (prbs >> 27)) & 1; prbs = (prbs << 1) | next;`
-/

/-- The feedback bit: XOR of bit 30 and bit 27 of the pre-shift register. -/
def prbsNext (s : ℕ) : ℕ :=
  ((s >>> 30) ^^^ (s >>> 27)) &&& 1

/-- One LFSR update on the `uint32_t` register: shift left (wrapping at
32 bits, as C++ `uint32_t` arithmetic does) and inject the feedback bit. -/
def prbsStep (s : ℕ) : ℕ :=
  ((s <<< 1) % 2 ^ 32) ||| prbsNext s

/-- The raw bit sequence produced by the LFSR from initial register `s`:
the `n`-th pattern-advance emits `next` computed from the register after
`n` previous updates. -/
def prbsBitSeq (s : ℕ) (n : ℕ) : ℕ :=
  prbsNext (prbsStep^[n] s)

/-- Proof device: the induced update on the feedback-relevant low 31 bits
of the register (bit 31 of the `uint32_t` never feeds back).  On inputs
below `2^31` the low bit of the shifted part is clear, so the C++ `|` is
exclusive-or. -/
def lfsr (s : ℕ) : ℕ :=
  ((s <<< 1) % 2 ^ 31) ^^^ prbsNext s

/-! ### Linear-map machinery for the LFSR order computation

A map `ℕ → ℕ` that is `^^^`-linear is represented on `31`-bit inputs by
its list of columns (images of the basis `2^j`).  `appCols` applies such a
column list, `composeCols` composes two of them, and `pwCols k` is the
column list of `lfsr^[2^(k+1) - 1]`, computed by square-and-multiply so
that the kernel can evaluate `pwCols 30` (the order `2^31 - 1`). -/

/-- Apply a column list to a bit vector: XOR of the columns at set bits. -/
def appCols : List ℕ → ℕ → ℕ
  | [], _ => 0
  | c :: cs, v => (if v % 2 = 1 then c else 0) ^^^ appCols cs (v / 2)

/-- Columns of the composition `appCols A ∘ appCols B`. -/
def composeCols (A B : List ℕ) : List ℕ :=
  B.map (appCols A)

/-- Columns of the one-step LFSR map on 31 bits. -/
def stepCols : List ℕ :=
  (List.range 31).map fun j => lfsr (2 ^ j)

/-- Columns of the square of a represented map (the argument is shared, so
kernel evaluation does not duplicate work). -/
def sqCols (A : List ℕ) : List ℕ :=
  composeCols A A

/-- Columns of `lfsr^[2^(k+1) - 1]`, by square-and-multiply. -/
def pwCols : ℕ → List ℕ
  | 0 => stepCols
  | k + 1 => composeCols (sqCols (pwCols k)) stepCols

/-- Columns of the identity map on 31 bits. -/
def idCols : List ℕ :=
  (List.range 31).map fun j => 2 ^ j

/-! ### Periodicity vocabulary -/

/-- The number `p` is a period of the sequence `f`. -/
def isPeriod {α : Type*} (f : ℕ → α) (p : ℕ) : Prop :=
  ∀ n, f (n + p) = f n

/-- The sequence `f` repeats exactly every `p` steps and never earlier. -/
def hasMinPeriod {α : Type*} (f : ℕ → α) (p : ℕ) : Prop :=
  isPeriod f p ∧ ∀ q, 0 < q → q < p → ¬ isPeriod f q

/-! ### The fixed 8b10b test pattern (`Generate8b10b`, lines 240-266) -/

/-- The literal 20-bit pattern from the source: K28.5 followed by D16.2. -/
def pattern8b10b : List Bool :=
  [false, false, true, true, true, true, true, false, true, false,
   true, false, false, true, false, false, false, true, false, true]

/-- From `value = pattern[nbit++]; if(nbit >= patternlen) nbit = 0;` — the
index update after a read. -/
def nbitNext (k : ℕ) : ℕ :=
  if k + 1 ≥ 20 then 0 else k + 1

/-- The raw bit sequence of the fixed-pattern generator: the `n`-th
pattern-advance reads `pattern` at the index reached after `n` previous
advances (the index starts at 0). -/
def enc8b10bBit (n : ℕ) : Bool :=
  pattern8b10b.getD (nbitNext^[n] 0) false

/-! ### Bit-pattern synthesis loops (`GeneratePRBS31` lines 183-219,
`Generate8b10b` lines 246-283) -/

/-- Loop state of the PRBS31 synthesis loop: the LFSR register, the current
logic level, and the phase accumulator `phase_to_next_edge`. -/
structure PrbsSt where
  prbs : ℕ
  value : Bool
  phase : ℚ
deriving DecidableEq

/-- Loop state of the 8b10b synthesis loop. -/
structure EncSt where
  value : Bool
  nbit : ℕ
  phase : ℚ
deriving DecidableEq

/-- The shared sample-emission logic: repeat the level if it did not
change, otherwise linearly interpolate with fraction
`1 - last_phase / sampleperiod` (`last_phase` is the pre-decrement
accumulator value). -/
def emitSample (scale sp lastPhase : ℚ) (last value : Bool) : ℚ :=
  if last = value then
    (if value then scale else -scale)
  else
    (if last then scale else -scale) +
      ((if value then scale else -scale) - (if last then scale else -scale)) *
        (1 - lastPhase / sp)

/-- One iteration of the PRBS31 synthesis loop: decrement the accumulator
by one sample period; on crossing below zero advance the LFSR and add one
symbol period back; emit the (possibly interpolated) sample. -/
def prbsLoopStep (scale period sp : ℚ) (st : PrbsSt) : PrbsSt × ℚ :=
  if st.phase - sp < 0 then
    (⟨prbsStep st.prbs, decide (prbsNext st.prbs = 1), st.phase - sp + period⟩,
      emitSample scale sp st.phase st.value (decide (prbsNext st.prbs = 1)))
  else
    (⟨st.prbs, st.value, st.phase - sp⟩,
      emitSample scale sp st.phase st.value st.value)

/-- One iteration of the 8b10b synthesis loop. -/
def encLoopStep (scale period sp : ℚ) (st : EncSt) : EncSt × ℚ :=
  if st.phase - sp < 0 then
    (⟨pattern8b10b.getD st.nbit false, nbitNext st.nbit, st.phase - sp + period⟩,
      emitSample scale sp st.phase st.value (pattern8b10b.getD st.nbit false))
  else
    (⟨st.value, st.nbit, st.phase - sp⟩,
      emitSample scale sp st.phase st.value st.value)

/-- Run the PRBS31 synthesis loop for `depth` iterations, collecting the
emitted samples. -/
def prbsGen (scale period sp : ℚ) : PrbsSt → ℕ → List ℚ
  | _, 0 => []
  | st, Nat.succ n =>
    (prbsLoopStep scale period sp st).2 ::
      prbsGen scale period sp (prbsLoopStep scale period sp st).1 n

/-- Run the 8b10b synthesis loop for `depth` iterations. -/
def encGen (scale period sp : ℚ) : EncSt → ℕ → List ℚ
  | _, 0 => []
  | st, Nat.succ n =>
    (encLoopStep scale period sp st).2 ::
      encGen scale period sp (encLoopStep scale period sp st).1 n

/-! ### Degradation, fast path (`DegradeSerialData`, lines 406-411):
`for(i) cap->m_samples[i] += noise(m_rng);` -/

/-- Add `stddev * g i` to each sample, `i` counting from `i0` in loop
order (one draw from the seeded generator per sample). -/
def addNoise (stddev : ℚ) (g : ℕ → ℚ) : ℕ → List ℚ → List ℚ
  | _, [] => []
  | i, s :: rest => (s + stddev * g i) :: addNoise stddev g (i + 1) rest

/-- The fast path of `DegradeSerialData` (loss-model flag disabled): one
independent noise draw added to each sample in place. -/
def DegradeSerialDataNoise (stddev : ℚ) (g : ℕ → ℚ) (samples : List ℚ) : List ℚ :=
  addNoise stddev g 0 samples

/-! ### Top-level generators -/

/-- A waveform: a label-free sample sequence with its time step, as in
`UniformAnalogWaveform`. -/
structure UniformAnalogWaveform where
  timescale : ℤ
  samples : List ℚ
deriving DecidableEq

/-- Source `GenerateStep` (lines 81-101): first `depth/2` samples at `vlo`,
the rest at `vhi`. -/
def GenerateStep (vlo vhi : ℚ) (sampleperiod : ℤ) (depth : ℕ) : UniformAnalogWaveform :=
  ⟨sampleperiod, (List.range depth).map fun i => if i < depth / 2 then vlo else vhi⟩

/-- Source `GeneratePRBS31` with the loss-model flag disabled: synthesize the
idealized PRBS31 waveform (the register is seeded from the C library
`rand()`, whose value is the `seed` argument here) and add per-sample
noise.  `g` is the unit-draw stream of the engine's seeded noise source,
`stddev` the requested noise standard deviation. -/
def GeneratePRBS31 (seed : ℕ) (amplitude period sp : ℚ) (depth : ℕ)
    (stddev : ℚ) (g : ℕ → ℚ) : List ℚ :=
  DegradeSerialDataNoise stddev g
    (prbsGen (amplitude / 2) period sp ⟨seed, false, period⟩ depth)

/-- Source `Generate8b10b` with the loss-model flag disabled. -/
def Generate8b10b (amplitude period sp : ℚ) (depth : ℕ)
    (stddev : ℚ) (g : ℕ → ℚ) : List ℚ :=
  DegradeSerialDataNoise stddev g
    (encGen (amplitude / 2) period sp ⟨false, 0, period⟩ depth)

/-! ### Degradation, full path: group-delay trim (lines 365-367, 392-403)

`int64_t groupDelay = s21.GetGroupDelay(s21.size()/2) * FS_PER_SECOND;`
`int64_t groupDelaySamples = groupDelay / cap->m_timescale;`
`size_t istart = groupDelaySamples; size_t iend = depth;`
`size_t finalLen = iend - istart; ... cap->Resize(finalLen);`

`SParameters::GetGroupDelay` is not part of the source under scrutiny;
following the specification it returns the channel's group delay at the
requested bin in seconds, an arbitrary real with no sign guarantee.  Its
value, scaled to femtoseconds and truncated to `int64_t`, enters here as
the integer `groupDelayFs`. -/

/-- The group-delay sample count: C++ `int64_t` division truncates the
quotient toward zero. -/
def groupDelaySamplesOf (groupDelayFs timescale : ℤ) : ℤ :=
  groupDelayFs.tdiv timescale

/-- Modelled from the spec: "convert to an equivalent integer sample
count: `groupDelaySamples = round(groupDelaySeconds / samplePeriod)`" —
the specification's rounding-to-nearest version, for comparison. -/
def roundGroupDelaySamples (groupDelayFs timescale : ℤ) : ℤ :=
  round ((groupDelayFs : ℚ) / (timescale : ℚ))

/-- From `size_t istart = groupDelaySamples;` — the C++ `int64_t → size_t`
conversion reduces modulo `2^64`. -/
def istartOf (gds : ℤ) : ℕ :=
  (gds % (2 : ℤ) ^ 64).toNat

/-- From `size_t finalLen = iend - istart;` with `iend = depth`, in wrapping
`size_t` arithmetic. -/
def degradedLength (depth : ℕ) (gds : ℤ) : ℕ :=
  (depth + 2 ^ 64 - istartOf gds) % 2 ^ 64

/-- The trim-and-noise stage of the full degradation path: keep samples
`istart ≤ i < iend` of the inverse-transform buffer `buf`, rescale by
`fftscale = 1/npoints`, and add noise; the waveform is resized to
`finalLen`. -/
def DegradeSerialDataTrim (buf : ℕ → ℚ) (fftscale stddev : ℚ) (g : ℕ → ℚ)
    (depth : ℕ) (gds : ℤ) : List ℚ :=
  (List.range (degradedLength depth gds)).map fun i =>
    buf (i + istartOf gds) * fftscale + stddev * g i

/-! Packed representation used only to make the kernel evaluation of the
power chain cheap: a column list of 31 entries below `2^31` is packed,
little-endian, into a single natural number with 31-bit limbs, and the
matrix operations are carried out by limb arithmetic on these numbers. -/

/-- Pack a column list into one natural number, 31 bits per limb. -/
def packCols : List ℕ → ℕ
  | [] => 0
  | c :: cs => c + 2 ^ 31 * packCols cs

/-- Apply a packed column list (first argument is the limb count). -/
def appP : ℕ → ℕ → ℕ → ℕ
  | 0, _, _ => 0
  | f + 1, M, v => (if v % 2 = 1 then M % 2 ^ 31 else 0) ^^^ appP f (M / 2 ^ 31) (v / 2)

/-- Composition of packed column lists (first argument is the limb count
of the second operand). -/
def compP : ℕ → ℕ → ℕ → ℕ
  | 0, _, _ => 0
  | f + 1, A, B => appP 31 A (B % 2 ^ 31) + 2 ^ 31 * compP f A (B / 2 ^ 31)

/-- Square of a packed 31-limb column list. -/
def sqP (A : ℕ) : ℕ :=
  compP 31 A A

/-- Packed value of `pwCols 0`. -/
def pwPackLit0 : ℕ :=
  13614046404356604896239832820901352211646310855876392892710124794982447203223277968865352164429653076275213619442863859557395923991198557305186996410388490586952174183517849710899944434614710339523769252728849513004554816031729208395701077720466381273738496787782525856967771029506

/-- Packed value of `pwCols 1`. -/
def pwPackLit1 : ℕ :=
  36304123750586088057716042391625403141941643902657742454907240457216014687680531295634061575022455818646244354816480349218096684564764236781468237568234703092665172972185037925459044689209998286065985939598863958208178658066312505511683238519951698390761776926125940422348906692616

/-- Packed value of `pwCols 2`. -/
def pwPackLit2 : ℕ :=
  580865980009377408907712274337110795276800130020844198240542094764811401520255267925153946906713978029632134960701795795263630279280360939050664241783771638986907214996415301152044577045528502382838169315366874060290927049853025461664760174108865609516677064656518934672243406405760

/-- Packed value of `pwCols 3`. -/
def pwPackLit3 : ℕ :=
  148701690882400616680374342230300363590860833285336114749566931486751410903837218053908924513999373415318063688003542448317981423758448175414783480884954011543245348239738094033828270541038033350567118489962366889968419842441057560848889566030381432737988446699745147754634095655682048

/-- Packed value of `pwCols 4`. -/
def pwPackLit4 : ℕ :=
  9745314049973130565351100949136981773901857812185508132308762311093790984737043758727406792852048995834508104795706128042595884219476949400532853769543884330026728652293363874812405353649178852492552111434599786728197444337966856087501490150823203614853250194304219347081221300661872754697

/-- Packed value of `pwCols 5`. -/
def pwPackLit5 : ℕ :=
  594480026413734013803952107158012147488446440876720591133252219559793848723478545894019299071143631105907348580144659654821026203271559496355851238194160129573859389179933150862944521480143212722361938568095723573295481865884754670060461251829331990790415561444301460529211177435266

/-- Packed value of `pwCols 6`. -/
def pwPackLit6 : ℕ :=
  148737995006151202768432058272691988994002774929238772492021838727208626918524898585204558575574395871136709932358358928667199520443012939651564949122522246246338013412710279071753729585727243348853184475901965753926628021099123873354401249268901384436379208476671273695056444562374664

/-- Packed value of `pwCols 7`. -/
def pwPackLit7 : ℕ :=
  9745314630839110574728509856849256111012653088985638153152960551635885749548445278982674718005995902548486134427841088744391679483107228680893792820208126113798367639200578871227706505693755898021054494272769102095071504628893905940526951815583377723718859710981284003600155972905279160457

/-- Packed value of `pwCols 8`. -/
def pwPackLit8 : ℕ :=
  149296170908814350694178294337458375738349279726212835340700183706311204752560696599802943813070517046423971036583687107972802449961719734911139332123148171672819207628918027184691215062518176563289480428530462613541715324306942315518950027282210764728778862261189449215163306833117314

/-- Packed value of `pwCols 9`. -/
def pwPackLit9 : ℕ :=
  9745462715359889215381693265763169682640045531077149565765769423118037278931932908264929406142501420185467604213149776768563852982804023283944031771556531715803568804976430640721401256460675201315904392487103809496223454549630639078749833528705995476334289791989142166103035512408621744129

/-- Packed value of `pwCols 10`. -/
def pwPackLit10 : ℕ :=
  9745314063587176969707705845376814594803210023831818988185155203803915779719490961950684761717401160264161181070919747485459743776872873391731411074730880740415219239245538058330255064549123287107262450958369039457046957342521672119230698546524281335319631468042716134863747157629643784203

/-- Packed value of `pwCols 11`. -/
def pwPackLit11 : ℕ :=
  630784150164320101861668149549637550630388084779378333588159460017009863411159077189653360646166086924553592934961140004039122887836323733137319475762394832666524562152118188788403566169353211008427924507694587531503660523951067175572144490349283689181177338370427400951560084127882

/-- Packed value of `pwCols 12`. -/
def pwPackLit12 : ℕ :=
  149318860986160580177339770547029099789279575059259616690262380821973438320045153853129712522481109849166342067319060724462463150722293300590615613364306017885324920627706694372905774162772771851236022645217332627986918948148976898816066009443010250045895885541327792629728687968780424

/-- Packed value of `pwCols 13`. -/
def pwPackLit13 : ℕ :=
  9745463332529992975345190231191486411376243949818923489267710118567372500959349116200728626930509901921901452491529092286839997464530987129069207603689011067809910884548818609321740333964296936054405061391259064461961473048736346998087800705149408105151597699427983748747910607000934842505

/-- Packed value of `pwCols 14`. -/
def pwPackLit14 : ℕ :=
  9745463346144039379701795127431319232277596161465234345144103011277497295941796319424006595795862066351554528766742711729703857021926911120267764908876007478198401471500992792839590044864241370669115400915028317190810986053291163029817009100850485825617978973166480536530436463968705872011

/-- Packed value of `pwCols 15`. -/
def pwPackLit15 : ℕ :=
  9745463309839915629115707069715276840652193019523590442486360556370256838725781631743475300161800491329098710120498356913223507803830226555503528127407769909963698378835819820654552119405196681459117114849042377591947027845112504963504503589167247305666280582404703610404496041619799179395

/-- Packed value of `pwCols 16`. -/
def pwPackLit16 : ℕ :=
  9745462728973935619738298162003002503541397742723460421642162315828162073914380111488207375007853584615120680488363396211427712540199947275142589076743528126192059391928604824239250967360619635930614732010873062225072967554185455110479041924407073196800671065727638953885561369376392773635

/-- Packed value of `pwCols 17`. -/
def pwPackLit17 : ℕ :=
  9745314027283053219121617787660772203177806881890175085527412748896675322503476274270153466083339585241705362424675392668979394558776188826967174293262643172180516146580365086145217139090078597897264164892383099858182999134343014052918193034841042815367933077280939208737806735280737091587

/-- Packed value of `pwCols 18`. -/
def pwPackLit18 : ℕ :=
  49918170154942692953955875212526755353587954758534135347617365252198461890903809264499413739452108894921457974259344208775492608555962794086655233978623193679617347155702887636358989123824708625589755192327713471212733474098041713907384316240418079664500273713908466279316677722122

/-- Packed value of `pwCols 19`. -/
def pwPackLit19 : ℕ :=
  617170103759963496965428316728736198418741773923501940695449335222027416207935799220788008481736433848278379315518276144481726963845125175832132479352006342079572387968600339077503621734738500668904155254965738018499105707919337967176443412628817307907438841582644875094592313098376

/-- Packed value of `pwCols 20`. -/
def pwPackLit20 : ℕ :=
  149282556862409994089282054504637474386137633415356958947807473581516222305357473321834078460906087393347695822964244244113245054037728536353834145126737783182232255454734509334980315118083561852949956659277733764028710769490910586310554326204490298347505123764401666689306339062087808

/-- Packed value of `pwCols 21`. -/
def pwPackLit21 : ℕ :=
  9745462751664012965967781323479212074265448673018793468423511878025277736147947595945460701776562995207923422859394131585044202200900707848708268553024769284038271897641603612906439181919719890525902678553089749095087412757809297145062339040389233996285988182750919092228975934757528436745

/-- Packed value of `pwCols 22`. -/
def pwPackLit22 : ℕ :=
  9745314644453156979085114753089088931914005300631949009029353444346010544530892482205952686871348066978139210703054708187255539040503152672092350125395122524186858226152753054745556216593700332635764833796538354823921017633448721972256160211284455444185240984719780791382681829873050189963

/-- Packed value of `pwCols 23`. -/
def pwPackLit23 : ℕ :=
  149332475032564936782236010379850001141491221370115493083155090946768420767248377131098577874645539502242617280938503588322020546646284499147920800360716406375911872801890212222616674107207386561575546414470061477499923502965008628024461710520730716427169624038115575155585655739809930

/-- Packed value of `pwCols 24`. -/
def pwPackLit24 : ℕ :=
  9745463296225869224759102173475444019750840807877279586609967663660132043743334428520197331296448326899445633845284737470359648246434302564304970822220773499575207791883645637136702408505252246844406775325273124863097514840557688931775295193466169585199899308666206822621970184652028149889

/-- Packed value of `pwCols 25`. -/
def pwPackLit25 : ℕ :=
  9745462765278059370324386219719044895166800884665104324299904770735402531130394799168738670641915159637576499134607751027908061758296631839906825858211765694426762484593777796424288892819664325140613018076859001823936925762364113176791547436090311716752369456489415880011501791725299466251

/-- Packed value of `pwCols 26`. -/
def pwPackLit26 : ℕ :=
  9745314608149033228499026695373046540288602158690305106371610989438770087314877794525421391237286491955683392056810353370775189822406468107328113343926884955952155133487580082560518291134655643425766547730552415225057059425270063905943654699601216924233542593958003865256741407524143497347

/-- Packed value of `pwCols 27`. -/
def pwPackLit27 : ℕ :=
  148751609052555559373328298105512890346214421240094648884914548852003609365728121863173423927738825524212985145977801792526756916367004138208870136118932634736924965586893796921464629530161858059192708245154694603439632575915155602562796950346621850817652946973459056220913412333404170

/-- Packed value of `pwCols 28`. -/
def pwPackLit28 : ℕ :=
  9745314594534986824142421799133213719387249947043994250495218096728645292332430591302143422371934327526030315781596733927911330265010544116129556038739888545563664546535405899042668580234711208811056208206783162496207546420715247874214446303900139203767161320219507077474215550556372467841

/-- Packed value of `pwCols 29`. -/
def pwPackLit29 : ℕ :=
  148715304928804973285270582063121264943072479596191991142459641611546393351040441331877789866163803068394338901622985312177538819682439373972088667881364400033832300413921611883539170485472648060906642259215095739481424397257089290057285267108101899119262185196532930280491063426711554

/-- Packed value of `pwCols 30`. -/
def pwPackLit30 : ℕ :=
  9745314013669006814765012891420939382276454670243864229651019856186550527521029071046875497217987420812052286149461773226115535001380264835768616988075646761792025559628190902627367428190134163282553825368613847129333486129788198021188984639139965094901551803542442420955280878312966062081

/-! ## Theorems

### Bitwise helper lemmas -/

theorem xor_mod_two (x y : ℕ) : (x ^^^ y) % 2 = x % 2 ^^^ y % 2 := by
  have h := Nat.and_xor_distrib_right (a := x) (b := y) (c := 1)
  simpa [Nat.and_one_is_mod] using h

theorem xor_mod_two_pow (x y n : ℕ) : (x ^^^ y) % 2 ^ n = x % 2 ^ n ^^^ y % 2 ^ n := by
  apply Nat.eq_of_testBit_eq
  intro i
  simp [Nat.testBit_mod_two_pow, Nat.testBit_xor, Bool.and_xor_distrib_left]

theorem or_mod_two_pow (a b n : ℕ) : (a ||| b) % 2 ^ n = a % 2 ^ n ||| b % 2 ^ n := by
  apply Nat.eq_of_testBit_eq
  intro i
  simp [Nat.testBit_mod_two_pow, Nat.testBit_or, Bool.and_or_distrib_left]

theorem shiftLeft_one_xor (a b : ℕ) : (a ^^^ b) <<< 1 = a <<< 1 ^^^ b <<< 1 := by
  apply Nat.eq_of_testBit_eq
  intro i
  simp [Nat.testBit_shiftLeft, Nat.testBit_xor, Bool.and_xor_distrib_left]

theorem shiftRight_xor (a b k : ℕ) : (a ^^^ b) >>> k = a >>> k ^^^ b >>> k := by
  apply Nat.eq_of_testBit_eq
  intro i
  simp [Nat.testBit_shiftRight, Nat.testBit_xor]

theorem two_mul_xor (a b : ℕ) : 2 * (a ^^^ b) = 2 * a ^^^ 2 * b := by
  have h := shiftLeft_one_xor a b
  simpa [Nat.shiftLeft_eq, Nat.mul_comm] using h

theorem testBit_le_one_succ {b : ℕ} (hb : b ≤ 1) (j : ℕ) : b.testBit (j + 1) = false := by
  apply Nat.testBit_lt_two_pow
  calc b ≤ 1 := hb
    _ < 2 ^ 1 := by norm_num
    _ ≤ 2 ^ (j + 1) := Nat.pow_le_pow_right (by norm_num) (by omega)

theorem or_eq_xor_of_even_le_one {a b : ℕ} (ha : a % 2 = 0) (hb : b ≤ 1) :
    a ||| b = a ^^^ b := by
  apply Nat.eq_of_testBit_eq
  intro i
  cases i with
  | zero =>
    simp only [Nat.testBit_or, Nat.testBit_xor, Nat.testBit_zero, ha]
    cases hb0 : b % 2 <;> simp_all <;> omega
  | succ j => simp [Nat.testBit_or, Nat.testBit_xor, testBit_le_one_succ hb j]

theorem xor_two_mul_add_one (w : ℕ) : 1 ^^^ 2 * w = 2 * w + 1 := by
  apply Nat.eq_of_testBit_eq
  intro i
  cases i with
  | zero => simp [Nat.testBit_xor]; omega
  | succ j =>
    have h1 : Nat.testBit 1 (j + 1) = false := testBit_le_one_succ (by norm_num) j
    rw [Nat.testBit_xor, h1, Nat.testBit_succ, Nat.testBit_succ]
    have h2 : 2 * w / 2 = w := by omega
    have h3 : (2 * w + 1) / 2 = w := by omega
    simp [h2, h3]

/-! ### Column-list representation of xor-linear maps -/

theorem appCols_zero (cs : List ℕ) : appCols cs 0 = 0 := by
  induction cs with
  | nil => rfl
  | cons c cs ih => simp [appCols, ih]

theorem ite_xor_of_le_one {x y : ℕ} (c : ℕ) (hx : x ≤ 1) (hy : y ≤ 1) :
    (if x ^^^ y = 1 then c else 0) =
      (if x = 1 then c else 0) ^^^ (if y = 1 then c else 0) := by
  interval_cases x <;> interval_cases y <;> simp

theorem appCols_xor (cs : List ℕ) (a b : ℕ) :
    appCols cs (a ^^^ b) = appCols cs a ^^^ appCols cs b := by
  induction cs generalizing a b with
  | nil => simp [appCols]
  | cons c cs ih =>
    rw [appCols, appCols, appCols, Nat.xor_div_two, ih, xor_mod_two,
      ite_xor_of_le_one c (Nat.le_of_lt_succ (Nat.mod_lt _ (by norm_num)))
        (Nat.le_of_lt_succ (Nat.mod_lt _ (by norm_num)))]
    generalize appCols cs (a / 2) = u
    generalize appCols cs (b / 2) = v
    generalize (if a % 2 = 1 then c else 0) = p
    generalize (if b % 2 = 1 then c else 0) = q
    rw [Nat.xor_assoc, Nat.xor_assoc]
    congr 1
    rw [← Nat.xor_assoc, ← Nat.xor_assoc, Nat.xor_comm u q]

theorem appCols_two_pow (cs : List ℕ) (j : ℕ) (h : j < cs.length) :
    appCols cs (2 ^ j) = cs.getD j 0 := by
  induction cs generalizing j with
  | nil => simp at h
  | cons c cs ih =>
    cases j with
    | zero => simp [appCols, appCols_zero]
    | succ j =>
      have h2 : 2 ^ (j + 1) % 2 = 0 := by
        simp [Nat.pow_succ, Nat.mul_mod_left]
      have h3 : 2 ^ (j + 1) / 2 = 2 ^ j := by
        rw [Nat.pow_succ, Nat.mul_div_cancel _ (by norm_num)]
      rw [appCols, h2, h3, if_neg (by norm_num), ih j (by simpa using h)]
      simp [List.getD]

theorem appCols_eq_of_linear (f : ℕ → ℕ)
    (hf : ∀ a b, f (a ^^^ b) = f a ^^^ f b) (hf0 : f 0 = 0) :
    ∀ cs : List ℕ, (∀ j, j < cs.length → cs.getD j 0 = f (2 ^ j)) →
      ∀ v, v < 2 ^ cs.length → appCols cs v = f v := by
  intro cs
  induction cs generalizing f with
  | nil =>
    intro _ v hv
    have hv0 : v = 0 := by
      simp only [List.length_nil, pow_zero] at hv
      omega
    rw [hv0]
    simpa [appCols] using hf0.symm
  | cons c cs ih =>
    intro hbasis v hv
    have hdouble : ∀ a b : ℕ, f (2 * (a ^^^ b)) = f (2 * a) ^^^ f (2 * b) := by
      intro a b
      rw [two_mul_xor, hf]
    have hbasis' : ∀ j, j < cs.length → cs.getD j 0 = f (2 * 2 ^ j) := by
      intro j hj
      have := hbasis (j + 1) (by simpa using hj)
      simpa [List.getD, Nat.pow_succ, Nat.mul_comm] using this
    have htail : appCols cs (v / 2) = f (2 * (v / 2)) := by
      exact ih (fun w => f (2 * w)) hdouble (by simpa using hf0) hbasis'
        (v / 2) (by
          have : (2 : ℕ) ^ (c :: cs).length = 2 * 2 ^ cs.length := by
            simp [List.length_cons, Nat.pow_succ, Nat.mul_comm]
          omega)
    have hhead : c = f 1 := by simpa [List.getD] using hbasis 0 (by simp)
    rw [appCols, htail, hhead]
    rcases Nat.mod_two_eq_zero_or_one v with hv2 | hv2
    · rw [if_neg (by omega)]
      have : 2 * (v / 2) = v := by omega
      rw [this, Nat.zero_xor]
    · rw [if_pos hv2, ← hf, xor_two_mul_add_one]
      have : 2 * (v / 2) + 1 = v := by omega
      rw [this]

theorem appCols_compose (A B : List ℕ) (v : ℕ) :
    appCols (composeCols A B) v = appCols A (appCols B v) := by
  induction B generalizing v with
  | nil => simp [composeCols, appCols, appCols_zero]
  | cons b B ih =>
    rw [composeCols, List.map_cons, appCols, appCols]
    rw [show (List.map (appCols A) B) = composeCols A B from rfl, ih]
    rw [appCols_xor]
    congr 1
    split
    · rfl
    · rw [appCols_zero]

/-! ### The 31-bit LFSR map: linearity, range, and its order -/

theorem prbsNext_le_one (s : ℕ) : prbsNext s ≤ 1 := by
  rw [prbsNext, Nat.and_one_is_mod]
  omega

theorem prbsNext_eq (s : ℕ) : prbsNext s = (s >>> 30) % 2 ^^^ (s >>> 27) % 2 := by
  rw [prbsNext, Nat.and_one_is_mod, xor_mod_two]

theorem prbsNext_mod (s : ℕ) : prbsNext (s % 2 ^ 31) = prbsNext s := by
  rw [prbsNext_eq, prbsNext_eq, Nat.shiftRight_eq_div_pow, Nat.shiftRight_eq_div_pow,
    Nat.shiftRight_eq_div_pow, Nat.shiftRight_eq_div_pow]
  congr 1 <;> [skip; skip] <;> norm_num <;> omega

theorem prbsNext_xor (a b : ℕ) : prbsNext (a ^^^ b) = prbsNext a ^^^ prbsNext b := by
  rw [prbsNext_eq, prbsNext_eq, prbsNext_eq, shiftRight_xor, shiftRight_xor,
    xor_mod_two, xor_mod_two]
  generalize a >>> 30 % 2 = xa
  generalize a >>> 27 % 2 = ya
  generalize b >>> 30 % 2 = xb
  generalize b >>> 27 % 2 = yb
  rw [Nat.xor_assoc, Nat.xor_assoc]
  congr 1
  rw [← Nat.xor_assoc, ← Nat.xor_assoc, Nat.xor_comm xb ya]

theorem lfsr_linear (a b : ℕ) : lfsr (a ^^^ b) = lfsr a ^^^ lfsr b := by
  rw [lfsr, lfsr, lfsr, shiftLeft_one_xor, xor_mod_two_pow, prbsNext_xor]
  generalize a <<< 1 % 2 ^ 31 = xa
  generalize b <<< 1 % 2 ^ 31 = xb
  generalize prbsNext a = ya
  generalize prbsNext b = yb
  rw [Nat.xor_assoc, Nat.xor_assoc]
  congr 1
  rw [← Nat.xor_assoc, ← Nat.xor_assoc, Nat.xor_comm xb ya]

theorem lfsr_zero : lfsr 0 = 0 := by decide

theorem lfsr_lt (s : ℕ) : lfsr s < 2 ^ 31 := by
  rw [lfsr]
  exact Nat.xor_lt_two_pow (Nat.mod_lt _ (by norm_num))
    (lt_of_le_of_lt (prbsNext_le_one s) (by norm_num))

theorem lfsr_iterate_lt (n s : ℕ) (h : s < 2 ^ 31) : lfsr^[n] s < 2 ^ 31 := by
  induction n with
  | zero => simpa using h
  | succ n ih => rw [Function.iterate_succ_apply']; exact lfsr_lt _

theorem stepCols_length : stepCols.length = 31 := by
  simp [stepCols]

theorem stepCols_getD (j : ℕ) (h : j < 31) : stepCols.getD j 0 = lfsr (2 ^ j) := by
  rw [stepCols, List.getD_eq_getElem _ _ (by simpa [stepCols] using h)]
  simp

theorem appCols_stepCols (v : ℕ) (hv : v < 2 ^ 31) : appCols stepCols v = lfsr v := by
  apply appCols_eq_of_linear lfsr lfsr_linear lfsr_zero stepCols
  · intro j hj
    exact stepCols_getD j (by simpa [stepCols_length] using hj)
  · simpa [stepCols_length] using hv

theorem appCols_pwCols (k : ℕ) :
    ∀ v, v < 2 ^ 31 → appCols (pwCols k) v = lfsr^[2 ^ (k + 1) - 1] v := by
  induction k with
  | zero =>
    intro v hv
    simpa using appCols_stepCols v hv
  | succ k ih =>
    intro v hv
    have h1 : appCols (pwCols (k + 1)) v =
        appCols (pwCols k) (appCols (pwCols k) (appCols stepCols v)) := by
      rw [pwCols, appCols_compose, sqCols, appCols_compose]
    rw [h1, appCols_stepCols v hv]
    have hlt1 : lfsr v < 2 ^ 31 := lfsr_lt v
    rw [ih _ hlt1]
    have hlt2 : lfsr^[2 ^ (k + 1) - 1] (lfsr v) < 2 ^ 31 := lfsr_iterate_lt _ _ hlt1
    rw [ih _ hlt2]
    have hm : 2 ^ (k + 1 + 1) - 1 =
        (2 ^ (k + 1) - 1) + ((2 ^ (k + 1) - 1) + 1) := by
      have hp : 2 ^ (k + 2) = 2 * 2 ^ (k + 1) := by rw [pow_succ, Nat.mul_comm]
      have hp1 : 1 ≤ 2 ^ (k + 1) := Nat.one_le_two_pow
      omega
    rw [hm, Function.iterate_add_apply, Function.iterate_succ_apply]

/-! ### Kernel evaluation of the order through the packed representation -/

theorem appP_packCols (cs : List ℕ) (hb : ∀ c ∈ cs, c < 2 ^ 31) :
    ∀ v, appP cs.length (packCols cs) v = appCols cs v := by
  induction cs with
  | nil => intro v; rfl
  | cons c cs ih =>
    intro v
    have hc : c < 2 ^ 31 := hb c (List.mem_cons_self c cs)
    have hmod : (c + 2 ^ 31 * packCols cs) % 2 ^ 31 = c := by omega
    have hdiv : (c + 2 ^ 31 * packCols cs) / 2 ^ 31 = packCols cs := by omega
    rw [List.length_cons, packCols, appP, hmod, hdiv, appCols,
      ih (fun x hx => hb x (List.mem_cons_of_mem c hx)) (v / 2)]

theorem appP31_packCols (cs : List ℕ) (hlen : cs.length = 31)
    (hb : ∀ c ∈ cs, c < 2 ^ 31) (v : ℕ) :
    appP 31 (packCols cs) v = appCols cs v := by
  rw [← hlen]
  exact appP_packCols cs hb v

theorem appCols_lt_two_pow (cs : List ℕ) (hb : ∀ c ∈ cs, c < 2 ^ 31) (v : ℕ) :
    appCols cs v < 2 ^ 31 := by
  induction cs generalizing v with
  | nil =>
    rw [appCols]
    norm_num
  | cons c cs ih =>
    rw [appCols]
    apply Nat.xor_lt_two_pow
    · split
      · exact hb c (List.mem_cons_self c cs)
      · norm_num
    · exact ih (fun x hx => hb x (List.mem_cons_of_mem c hx)) (v / 2)

theorem packCols_composeCols (A B : List ℕ) (hAlen : A.length = 31)
    (hAb : ∀ c ∈ A, c < 2 ^ 31) (hBb : ∀ c ∈ B, c < 2 ^ 31) :
    packCols (composeCols A B) = compP B.length (packCols A) (packCols B) := by
  induction B with
  | nil => rfl
  | cons b B ih =>
    have hbb : b < 2 ^ 31 := hBb b (List.mem_cons_self b B)
    have hmod : (b + 2 ^ 31 * packCols B) % 2 ^ 31 = b := by omega
    have hdiv : (b + 2 ^ 31 * packCols B) / 2 ^ 31 = packCols B := by omega
    rw [composeCols, List.map_cons, packCols, List.length_cons, packCols, compP,
      hmod, hdiv, show List.map (appCols A) B = composeCols A B from rfl,
      ih (fun x hx => hBb x (List.mem_cons_of_mem b hx)),
      appP31_packCols A hAlen hAb b]

theorem packCols_inj (cs : List ℕ) (hcb : ∀ c ∈ cs, c < 2 ^ 31) :
    ∀ ds : List ℕ, cs.length = ds.length → (∀ c ∈ ds, c < 2 ^ 31) →
      packCols cs = packCols ds → cs = ds := by
  induction cs with
  | nil =>
    intro ds hlen _ _
    cases ds with
    | nil => rfl
    | cons d ds => simp at hlen
  | cons c cs ih =>
    intro ds hlen hdb h
    cases ds with
    | nil => simp at hlen
    | cons d ds =>
      rw [packCols, packCols] at h
      have hc : c < 2 ^ 31 := hcb c (List.mem_cons_self c cs)
      have hd : d < 2 ^ 31 := hdb d (List.mem_cons_self d ds)
      have hcd : c = d := by omega
      have htl : packCols cs = packCols ds := by omega
      rw [hcd, ih (fun x hx => hcb x (List.mem_cons_of_mem c hx)) ds
        (by simpa using hlen) (fun x hx => hdb x (List.mem_cons_of_mem d hx)) htl]

theorem stepCols_bounded : ∀ c ∈ stepCols, c < 2 ^ 31 := by
  intro c hc
  rw [stepCols] at hc
  obtain ⟨j, _, rfl⟩ := List.mem_map.mp hc
  exact lfsr_lt _

theorem composeCols_length (A B : List ℕ) : (composeCols A B).length = B.length := by
  simp [composeCols]

theorem composeCols_bounded (A B : List ℕ) (hA : ∀ c ∈ A, c < 2 ^ 31) :
    ∀ c ∈ composeCols A B, c < 2 ^ 31 := by
  intro c hc
  rw [composeCols] at hc
  obtain ⟨b, _, rfl⟩ := List.mem_map.mp hc
  exact appCols_lt_two_pow A hA b

theorem pwCols_length (k : ℕ) : (pwCols k).length = 31 := by
  cases k with
  | zero => exact stepCols_length
  | succ k => rw [pwCols, composeCols_length, stepCols_length]

theorem pwCols_bounded (k : ℕ) : ∀ c ∈ pwCols k, c < 2 ^ 31 := by
  induction k with
  | zero => exact stepCols_bounded
  | succ k ih =>
    intro c hc
    rw [pwCols] at hc
    exact composeCols_bounded _ _ (fun x hx => composeCols_bounded _ _ ih x hx) c hc

theorem packPw_0 : packCols (pwCols 0) = pwPackLit0 := by decide

theorem packPw_1 : packCols (pwCols 1) = pwPackLit1 := by
  rw [show pwCols 1 = composeCols (sqCols (pwCols 0)) stepCols from rfl]
  have hAlen : (sqCols (pwCols 0)).length = 31 := by
    rw [sqCols, composeCols_length, pwCols_length]
  have hAb : ∀ c ∈ sqCols (pwCols 0), c < 2 ^ 31 :=
    fun c hc => composeCols_bounded _ _ (pwCols_bounded 0) c hc
  have hsq : packCols (sqCols (pwCols 0)) = sqP pwPackLit0 := by
    rw [sqCols, packCols_composeCols _ _ (pwCols_length 0) (pwCols_bounded 0)
      (pwCols_bounded 0), pwCols_length, packPw_0, sqP]
  rw [packCols_composeCols _ _ hAlen hAb stepCols_bounded, stepCols_length, hsq]
  decide

theorem packPw_2 : packCols (pwCols 2) = pwPackLit2 := by
  rw [show pwCols 2 = composeCols (sqCols (pwCols 1)) stepCols from rfl]
  have hAlen : (sqCols (pwCols 1)).length = 31 := by
    rw [sqCols, composeCols_length, pwCols_length]
  have hAb : ∀ c ∈ sqCols (pwCols 1), c < 2 ^ 31 :=
    fun c hc => composeCols_bounded _ _ (pwCols_bounded 1) c hc
  have hsq : packCols (sqCols (pwCols 1)) = sqP pwPackLit1 := by
    rw [sqCols, packCols_composeCols _ _ (pwCols_length 1) (pwCols_bounded 1)
      (pwCols_bounded 1), pwCols_length, packPw_1, sqP]
  rw [packCols_composeCols _ _ hAlen hAb stepCols_bounded, stepCols_length, hsq]
  decide

theorem packPw_3 : packCols (pwCols 3) = pwPackLit3 := by
  rw [show pwCols 3 = composeCols (sqCols (pwCols 2)) stepCols from rfl]
  have hAlen : (sqCols (pwCols 2)).length = 31 := by
    rw [sqCols, composeCols_length, pwCols_length]
  have hAb : ∀ c ∈ sqCols (pwCols 2), c < 2 ^ 31 :=
    fun c hc => composeCols_bounded _ _ (pwCols_bounded 2) c hc
  have hsq : packCols (sqCols (pwCols 2)) = sqP pwPackLit2 := by
    rw [sqCols, packCols_composeCols _ _ (pwCols_length 2) (pwCols_bounded 2)
      (pwCols_bounded 2), pwCols_length, packPw_2, sqP]
  rw [packCols_composeCols _ _ hAlen hAb stepCols_bounded, stepCols_length, hsq]
  decide

theorem packPw_4 : packCols (pwCols 4) = pwPackLit4 := by
  rw [show pwCols 4 = composeCols (sqCols (pwCols 3)) stepCols from rfl]
  have hAlen : (sqCols (pwCols 3)).length = 31 := by
    rw [sqCols, composeCols_length, pwCols_length]
  have hAb : ∀ c ∈ sqCols (pwCols 3), c < 2 ^ 31 :=
    fun c hc => composeCols_bounded _ _ (pwCols_bounded 3) c hc
  have hsq : packCols (sqCols (pwCols 3)) = sqP pwPackLit3 := by
    rw [sqCols, packCols_composeCols _ _ (pwCols_length 3) (pwCols_bounded 3)
      (pwCols_bounded 3), pwCols_length, packPw_3, sqP]
  rw [packCols_composeCols _ _ hAlen hAb stepCols_bounded, stepCols_length, hsq]
  decide

theorem packPw_5 : packCols (pwCols 5) = pwPackLit5 := by
  rw [show pwCols 5 = composeCols (sqCols (pwCols 4)) stepCols from rfl]
  have hAlen : (sqCols (pwCols 4)).length = 31 := by
    rw [sqCols, composeCols_length, pwCols_length]
  have hAb : ∀ c ∈ sqCols (pwCols 4), c < 2 ^ 31 :=
    fun c hc => composeCols_bounded _ _ (pwCols_bounded 4) c hc
  have hsq : packCols (sqCols (pwCols 4)) = sqP pwPackLit4 := by
    rw [sqCols, packCols_composeCols _ _ (pwCols_length 4) (pwCols_bounded 4)
      (pwCols_bounded 4), pwCols_length, packPw_4, sqP]
  rw [packCols_composeCols _ _ hAlen hAb stepCols_bounded, stepCols_length, hsq]
  decide

theorem packPw_6 : packCols (pwCols 6) = pwPackLit6 := by
  rw [show pwCols 6 = composeCols (sqCols (pwCols 5)) stepCols from rfl]
  have hAlen : (sqCols (pwCols 5)).length = 31 := by
    rw [sqCols, composeCols_length, pwCols_length]
  have hAb : ∀ c ∈ sqCols (pwCols 5), c < 2 ^ 31 :=
    fun c hc => composeCols_bounded _ _ (pwCols_bounded 5) c hc
  have hsq : packCols (sqCols (pwCols 5)) = sqP pwPackLit5 := by
    rw [sqCols, packCols_composeCols _ _ (pwCols_length 5) (pwCols_bounded 5)
      (pwCols_bounded 5), pwCols_length, packPw_5, sqP]
  rw [packCols_composeCols _ _ hAlen hAb stepCols_bounded, stepCols_length, hsq]
  decide

theorem packPw_7 : packCols (pwCols 7) = pwPackLit7 := by
  rw [show pwCols 7 = composeCols (sqCols (pwCols 6)) stepCols from rfl]
  have hAlen : (sqCols (pwCols 6)).length = 31 := by
    rw [sqCols, composeCols_length, pwCols_length]
  have hAb : ∀ c ∈ sqCols (pwCols 6), c < 2 ^ 31 :=
    fun c hc => composeCols_bounded _ _ (pwCols_bounded 6) c hc
  have hsq : packCols (sqCols (pwCols 6)) = sqP pwPackLit6 := by
    rw [sqCols, packCols_composeCols _ _ (pwCols_length 6) (pwCols_bounded 6)
      (pwCols_bounded 6), pwCols_length, packPw_6, sqP]
  rw [packCols_composeCols _ _ hAlen hAb stepCols_bounded, stepCols_length, hsq]
  decide

theorem packPw_8 : packCols (pwCols 8) = pwPackLit8 := by
  rw [show pwCols 8 = composeCols (sqCols (pwCols 7)) stepCols from rfl]
  have hAlen : (sqCols (pwCols 7)).length = 31 := by
    rw [sqCols, composeCols_length, pwCols_length]
  have hAb : ∀ c ∈ sqCols (pwCols 7), c < 2 ^ 31 :=
    fun c hc => composeCols_bounded _ _ (pwCols_bounded 7) c hc
  have hsq : packCols (sqCols (pwCols 7)) = sqP pwPackLit7 := by
    rw [sqCols, packCols_composeCols _ _ (pwCols_length 7) (pwCols_bounded 7)
      (pwCols_bounded 7), pwCols_length, packPw_7, sqP]
  rw [packCols_composeCols _ _ hAlen hAb stepCols_bounded, stepCols_length, hsq]
  decide

theorem packPw_9 : packCols (pwCols 9) = pwPackLit9 := by
  rw [show pwCols 9 = composeCols (sqCols (pwCols 8)) stepCols from rfl]
  have hAlen : (sqCols (pwCols 8)).length = 31 := by
    rw [sqCols, composeCols_length, pwCols_length]
  have hAb : ∀ c ∈ sqCols (pwCols 8), c < 2 ^ 31 :=
    fun c hc => composeCols_bounded _ _ (pwCols_bounded 8) c hc
  have hsq : packCols (sqCols (pwCols 8)) = sqP pwPackLit8 := by
    rw [sqCols, packCols_composeCols _ _ (pwCols_length 8) (pwCols_bounded 8)
      (pwCols_bounded 8), pwCols_length, packPw_8, sqP]
  rw [packCols_composeCols _ _ hAlen hAb stepCols_bounded, stepCols_length, hsq]
  decide

theorem packPw_10 : packCols (pwCols 10) = pwPackLit10 := by
  rw [show pwCols 10 = composeCols (sqCols (pwCols 9)) stepCols from rfl]
  have hAlen : (sqCols (pwCols 9)).length = 31 := by
    rw [sqCols, composeCols_length, pwCols_length]
  have hAb : ∀ c ∈ sqCols (pwCols 9), c < 2 ^ 31 :=
    fun c hc => composeCols_bounded _ _ (pwCols_bounded 9) c hc
  have hsq : packCols (sqCols (pwCols 9)) = sqP pwPackLit9 := by
    rw [sqCols, packCols_composeCols _ _ (pwCols_length 9) (pwCols_bounded 9)
      (pwCols_bounded 9), pwCols_length, packPw_9, sqP]
  rw [packCols_composeCols _ _ hAlen hAb stepCols_bounded, stepCols_length, hsq]
  decide

theorem packPw_11 : packCols (pwCols 11) = pwPackLit11 := by
  rw [show pwCols 11 = composeCols (sqCols (pwCols 10)) stepCols from rfl]
  have hAlen : (sqCols (pwCols 10)).length = 31 := by
    rw [sqCols, composeCols_length, pwCols_length]
  have hAb : ∀ c ∈ sqCols (pwCols 10), c < 2 ^ 31 :=
    fun c hc => composeCols_bounded _ _ (pwCols_bounded 10) c hc
  have hsq : packCols (sqCols (pwCols 10)) = sqP pwPackLit10 := by
    rw [sqCols, packCols_composeCols _ _ (pwCols_length 10) (pwCols_bounded 10)
      (pwCols_bounded 10), pwCols_length, packPw_10, sqP]
  rw [packCols_composeCols _ _ hAlen hAb stepCols_bounded, stepCols_length, hsq]
  decide

theorem packPw_12 : packCols (pwCols 12) = pwPackLit12 := by
  rw [show pwCols 12 = composeCols (sqCols (pwCols 11)) stepCols from rfl]
  have hAlen : (sqCols (pwCols 11)).length = 31 := by
    rw [sqCols, composeCols_length, pwCols_length]
  have hAb : ∀ c ∈ sqCols (pwCols 11), c < 2 ^ 31 :=
    fun c hc => composeCols_bounded _ _ (pwCols_bounded 11) c hc
  have hsq : packCols (sqCols (pwCols 11)) = sqP pwPackLit11 := by
    rw [sqCols, packCols_composeCols _ _ (pwCols_length 11) (pwCols_bounded 11)
      (pwCols_bounded 11), pwCols_length, packPw_11, sqP]
  rw [packCols_composeCols _ _ hAlen hAb stepCols_bounded, stepCols_length, hsq]
  decide

theorem packPw_13 : packCols (pwCols 13) = pwPackLit13 := by
  rw [show pwCols 13 = composeCols (sqCols (pwCols 12)) stepCols from rfl]
  have hAlen : (sqCols (pwCols 12)).length = 31 := by
    rw [sqCols, composeCols_length, pwCols_length]
  have hAb : ∀ c ∈ sqCols (pwCols 12), c < 2 ^ 31 :=
    fun c hc => composeCols_bounded _ _ (pwCols_bounded 12) c hc
  have hsq : packCols (sqCols (pwCols 12)) = sqP pwPackLit12 := by
    rw [sqCols, packCols_composeCols _ _ (pwCols_length 12) (pwCols_bounded 12)
      (pwCols_bounded 12), pwCols_length, packPw_12, sqP]
  rw [packCols_composeCols _ _ hAlen hAb stepCols_bounded, stepCols_length, hsq]
  decide

theorem packPw_14 : packCols (pwCols 14) = pwPackLit14 := by
  rw [show pwCols 14 = composeCols (sqCols (pwCols 13)) stepCols from rfl]
  have hAlen : (sqCols (pwCols 13)).length = 31 := by
    rw [sqCols, composeCols_length, pwCols_length]
  have hAb : ∀ c ∈ sqCols (pwCols 13), c < 2 ^ 31 :=
    fun c hc => composeCols_bounded _ _ (pwCols_bounded 13) c hc
  have hsq : packCols (sqCols (pwCols 13)) = sqP pwPackLit13 := by
    rw [sqCols, packCols_composeCols _ _ (pwCols_length 13) (pwCols_bounded 13)
      (pwCols_bounded 13), pwCols_length, packPw_13, sqP]
  rw [packCols_composeCols _ _ hAlen hAb stepCols_bounded, stepCols_length, hsq]
  decide

theorem packPw_15 : packCols (pwCols 15) = pwPackLit15 := by
  rw [show pwCols 15 = composeCols (sqCols (pwCols 14)) stepCols from rfl]
  have hAlen : (sqCols (pwCols 14)).length = 31 := by
    rw [sqCols, composeCols_length, pwCols_length]
  have hAb : ∀ c ∈ sqCols (pwCols 14), c < 2 ^ 31 :=
    fun c hc => composeCols_bounded _ _ (pwCols_bounded 14) c hc
  have hsq : packCols (sqCols (pwCols 14)) = sqP pwPackLit14 := by
    rw [sqCols, packCols_composeCols _ _ (pwCols_length 14) (pwCols_bounded 14)
      (pwCols_bounded 14), pwCols_length, packPw_14, sqP]
  rw [packCols_composeCols _ _ hAlen hAb stepCols_bounded, stepCols_length, hsq]
  decide

theorem packPw_16 : packCols (pwCols 16) = pwPackLit16 := by
  rw [show pwCols 16 = composeCols (sqCols (pwCols 15)) stepCols from rfl]
  have hAlen : (sqCols (pwCols 15)).length = 31 := by
    rw [sqCols, composeCols_length, pwCols_length]
  have hAb : ∀ c ∈ sqCols (pwCols 15), c < 2 ^ 31 :=
    fun c hc => composeCols_bounded _ _ (pwCols_bounded 15) c hc
  have hsq : packCols (sqCols (pwCols 15)) = sqP pwPackLit15 := by
    rw [sqCols, packCols_composeCols _ _ (pwCols_length 15) (pwCols_bounded 15)
      (pwCols_bounded 15), pwCols_length, packPw_15, sqP]
  rw [packCols_composeCols _ _ hAlen hAb stepCols_bounded, stepCols_length, hsq]
  decide

theorem packPw_17 : packCols (pwCols 17) = pwPackLit17 := by
  rw [show pwCols 17 = composeCols (sqCols (pwCols 16)) stepCols from rfl]
  have hAlen : (sqCols (pwCols 16)).length = 31 := by
    rw [sqCols, composeCols_length, pwCols_length]
  have hAb : ∀ c ∈ sqCols (pwCols 16), c < 2 ^ 31 :=
    fun c hc => composeCols_bounded _ _ (pwCols_bounded 16) c hc
  have hsq : packCols (sqCols (pwCols 16)) = sqP pwPackLit16 := by
    rw [sqCols, packCols_composeCols _ _ (pwCols_length 16) (pwCols_bounded 16)
      (pwCols_bounded 16), pwCols_length, packPw_16, sqP]
  rw [packCols_composeCols _ _ hAlen hAb stepCols_bounded, stepCols_length, hsq]
  decide

theorem packPw_18 : packCols (pwCols 18) = pwPackLit18 := by
  rw [show pwCols 18 = composeCols (sqCols (pwCols 17)) stepCols from rfl]
  have hAlen : (sqCols (pwCols 17)).length = 31 := by
    rw [sqCols, composeCols_length, pwCols_length]
  have hAb : ∀ c ∈ sqCols (pwCols 17), c < 2 ^ 31 :=
    fun c hc => composeCols_bounded _ _ (pwCols_bounded 17) c hc
  have hsq : packCols (sqCols (pwCols 17)) = sqP pwPackLit17 := by
    rw [sqCols, packCols_composeCols _ _ (pwCols_length 17) (pwCols_bounded 17)
      (pwCols_bounded 17), pwCols_length, packPw_17, sqP]
  rw [packCols_composeCols _ _ hAlen hAb stepCols_bounded, stepCols_length, hsq]
  decide

theorem packPw_19 : packCols (pwCols 19) = pwPackLit19 := by
  rw [show pwCols 19 = composeCols (sqCols (pwCols 18)) stepCols from rfl]
  have hAlen : (sqCols (pwCols 18)).length = 31 := by
    rw [sqCols, composeCols_length, pwCols_length]
  have hAb : ∀ c ∈ sqCols (pwCols 18), c < 2 ^ 31 :=
    fun c hc => composeCols_bounded _ _ (pwCols_bounded 18) c hc
  have hsq : packCols (sqCols (pwCols 18)) = sqP pwPackLit18 := by
    rw [sqCols, packCols_composeCols _ _ (pwCols_length 18) (pwCols_bounded 18)
      (pwCols_bounded 18), pwCols_length, packPw_18, sqP]
  rw [packCols_composeCols _ _ hAlen hAb stepCols_bounded, stepCols_length, hsq]
  decide

theorem packPw_20 : packCols (pwCols 20) = pwPackLit20 := by
  rw [show pwCols 20 = composeCols (sqCols (pwCols 19)) stepCols from rfl]
  have hAlen : (sqCols (pwCols 19)).length = 31 := by
    rw [sqCols, composeCols_length, pwCols_length]
  have hAb : ∀ c ∈ sqCols (pwCols 19), c < 2 ^ 31 :=
    fun c hc => composeCols_bounded _ _ (pwCols_bounded 19) c hc
  have hsq : packCols (sqCols (pwCols 19)) = sqP pwPackLit19 := by
    rw [sqCols, packCols_composeCols _ _ (pwCols_length 19) (pwCols_bounded 19)
      (pwCols_bounded 19), pwCols_length, packPw_19, sqP]
  rw [packCols_composeCols _ _ hAlen hAb stepCols_bounded, stepCols_length, hsq]
  decide

theorem packPw_21 : packCols (pwCols 21) = pwPackLit21 := by
  rw [show pwCols 21 = composeCols (sqCols (pwCols 20)) stepCols from rfl]
  have hAlen : (sqCols (pwCols 20)).length = 31 := by
    rw [sqCols, composeCols_length, pwCols_length]
  have hAb : ∀ c ∈ sqCols (pwCols 20), c < 2 ^ 31 :=
    fun c hc => composeCols_bounded _ _ (pwCols_bounded 20) c hc
  have hsq : packCols (sqCols (pwCols 20)) = sqP pwPackLit20 := by
    rw [sqCols, packCols_composeCols _ _ (pwCols_length 20) (pwCols_bounded 20)
      (pwCols_bounded 20), pwCols_length, packPw_20, sqP]
  rw [packCols_composeCols _ _ hAlen hAb stepCols_bounded, stepCols_length, hsq]
  decide

theorem packPw_22 : packCols (pwCols 22) = pwPackLit22 := by
  rw [show pwCols 22 = composeCols (sqCols (pwCols 21)) stepCols from rfl]
  have hAlen : (sqCols (pwCols 21)).length = 31 := by
    rw [sqCols, composeCols_length, pwCols_length]
  have hAb : ∀ c ∈ sqCols (pwCols 21), c < 2 ^ 31 :=
    fun c hc => composeCols_bounded _ _ (pwCols_bounded 21) c hc
  have hsq : packCols (sqCols (pwCols 21)) = sqP pwPackLit21 := by
    rw [sqCols, packCols_composeCols _ _ (pwCols_length 21) (pwCols_bounded 21)
      (pwCols_bounded 21), pwCols_length, packPw_21, sqP]
  rw [packCols_composeCols _ _ hAlen hAb stepCols_bounded, stepCols_length, hsq]
  decide

theorem packPw_23 : packCols (pwCols 23) = pwPackLit23 := by
  rw [show pwCols 23 = composeCols (sqCols (pwCols 22)) stepCols from rfl]
  have hAlen : (sqCols (pwCols 22)).length = 31 := by
    rw [sqCols, composeCols_length, pwCols_length]
  have hAb : ∀ c ∈ sqCols (pwCols 22), c < 2 ^ 31 :=
    fun c hc => composeCols_bounded _ _ (pwCols_bounded 22) c hc
  have hsq : packCols (sqCols (pwCols 22)) = sqP pwPackLit22 := by
    rw [sqCols, packCols_composeCols _ _ (pwCols_length 22) (pwCols_bounded 22)
      (pwCols_bounded 22), pwCols_length, packPw_22, sqP]
  rw [packCols_composeCols _ _ hAlen hAb stepCols_bounded, stepCols_length, hsq]
  decide

theorem packPw_24 : packCols (pwCols 24) = pwPackLit24 := by
  rw [show pwCols 24 = composeCols (sqCols (pwCols 23)) stepCols from rfl]
  have hAlen : (sqCols (pwCols 23)).length = 31 := by
    rw [sqCols, composeCols_length, pwCols_length]
  have hAb : ∀ c ∈ sqCols (pwCols 23), c < 2 ^ 31 :=
    fun c hc => composeCols_bounded _ _ (pwCols_bounded 23) c hc
  have hsq : packCols (sqCols (pwCols 23)) = sqP pwPackLit23 := by
    rw [sqCols, packCols_composeCols _ _ (pwCols_length 23) (pwCols_bounded 23)
      (pwCols_bounded 23), pwCols_length, packPw_23, sqP]
  rw [packCols_composeCols _ _ hAlen hAb stepCols_bounded, stepCols_length, hsq]
  decide

theorem packPw_25 : packCols (pwCols 25) = pwPackLit25 := by
  rw [show pwCols 25 = composeCols (sqCols (pwCols 24)) stepCols from rfl]
  have hAlen : (sqCols (pwCols 24)).length = 31 := by
    rw [sqCols, composeCols_length, pwCols_length]
  have hAb : ∀ c ∈ sqCols (pwCols 24), c < 2 ^ 31 :=
    fun c hc => composeCols_bounded _ _ (pwCols_bounded 24) c hc
  have hsq : packCols (sqCols (pwCols 24)) = sqP pwPackLit24 := by
    rw [sqCols, packCols_composeCols _ _ (pwCols_length 24) (pwCols_bounded 24)
      (pwCols_bounded 24), pwCols_length, packPw_24, sqP]
  rw [packCols_composeCols _ _ hAlen hAb stepCols_bounded, stepCols_length, hsq]
  decide

theorem packPw_26 : packCols (pwCols 26) = pwPackLit26 := by
  rw [show pwCols 26 = composeCols (sqCols (pwCols 25)) stepCols from rfl]
  have hAlen : (sqCols (pwCols 25)).length = 31 := by
    rw [sqCols, composeCols_length, pwCols_length]
  have hAb : ∀ c ∈ sqCols (pwCols 25), c < 2 ^ 31 :=
    fun c hc => composeCols_bounded _ _ (pwCols_bounded 25) c hc
  have hsq : packCols (sqCols (pwCols 25)) = sqP pwPackLit25 := by
    rw [sqCols, packCols_composeCols _ _ (pwCols_length 25) (pwCols_bounded 25)
      (pwCols_bounded 25), pwCols_length, packPw_25, sqP]
  rw [packCols_composeCols _ _ hAlen hAb stepCols_bounded, stepCols_length, hsq]
  decide

theorem packPw_27 : packCols (pwCols 27) = pwPackLit27 := by
  rw [show pwCols 27 = composeCols (sqCols (pwCols 26)) stepCols from rfl]
  have hAlen : (sqCols (pwCols 26)).length = 31 := by
    rw [sqCols, composeCols_length, pwCols_length]
  have hAb : ∀ c ∈ sqCols (pwCols 26), c < 2 ^ 31 :=
    fun c hc => composeCols_bounded _ _ (pwCols_bounded 26) c hc
  have hsq : packCols (sqCols (pwCols 26)) = sqP pwPackLit26 := by
    rw [sqCols, packCols_composeCols _ _ (pwCols_length 26) (pwCols_bounded 26)
      (pwCols_bounded 26), pwCols_length, packPw_26, sqP]
  rw [packCols_composeCols _ _ hAlen hAb stepCols_bounded, stepCols_length, hsq]
  decide

theorem packPw_28 : packCols (pwCols 28) = pwPackLit28 := by
  rw [show pwCols 28 = composeCols (sqCols (pwCols 27)) stepCols from rfl]
  have hAlen : (sqCols (pwCols 27)).length = 31 := by
    rw [sqCols, composeCols_length, pwCols_length]
  have hAb : ∀ c ∈ sqCols (pwCols 27), c < 2 ^ 31 :=
    fun c hc => composeCols_bounded _ _ (pwCols_bounded 27) c hc
  have hsq : packCols (sqCols (pwCols 27)) = sqP pwPackLit27 := by
    rw [sqCols, packCols_composeCols _ _ (pwCols_length 27) (pwCols_bounded 27)
      (pwCols_bounded 27), pwCols_length, packPw_27, sqP]
  rw [packCols_composeCols _ _ hAlen hAb stepCols_bounded, stepCols_length, hsq]
  decide

theorem packPw_29 : packCols (pwCols 29) = pwPackLit29 := by
  rw [show pwCols 29 = composeCols (sqCols (pwCols 28)) stepCols from rfl]
  have hAlen : (sqCols (pwCols 28)).length = 31 := by
    rw [sqCols, composeCols_length, pwCols_length]
  have hAb : ∀ c ∈ sqCols (pwCols 28), c < 2 ^ 31 :=
    fun c hc => composeCols_bounded _ _ (pwCols_bounded 28) c hc
  have hsq : packCols (sqCols (pwCols 28)) = sqP pwPackLit28 := by
    rw [sqCols, packCols_composeCols _ _ (pwCols_length 28) (pwCols_bounded 28)
      (pwCols_bounded 28), pwCols_length, packPw_28, sqP]
  rw [packCols_composeCols _ _ hAlen hAb stepCols_bounded, stepCols_length, hsq]
  decide

theorem packPw_30 : packCols (pwCols 30) = pwPackLit30 := by
  rw [show pwCols 30 = composeCols (sqCols (pwCols 29)) stepCols from rfl]
  have hAlen : (sqCols (pwCols 29)).length = 31 := by
    rw [sqCols, composeCols_length, pwCols_length]
  have hAb : ∀ c ∈ sqCols (pwCols 29), c < 2 ^ 31 :=
    fun c hc => composeCols_bounded _ _ (pwCols_bounded 29) c hc
  have hsq : packCols (sqCols (pwCols 29)) = sqP pwPackLit29 := by
    rw [sqCols, packCols_composeCols _ _ (pwCols_length 29) (pwCols_bounded 29)
      (pwCols_bounded 29), pwCols_length, packPw_29, sqP]
  rw [packCols_composeCols _ _ hAlen hAb stepCols_bounded, stepCols_length, hsq]
  decide

theorem idCols_bounded : ∀ c ∈ idCols, c < 2 ^ 31 := by
  intro c hc
  rw [idCols] at hc
  obtain ⟨j, hj, rfl⟩ := List.mem_map.mp hc
  exact Nat.pow_lt_pow_right (by norm_num) (List.mem_range.mp hj)

theorem pwCols_30_id : pwCols 30 = idCols := by
  apply packCols_inj (pwCols 30) (pwCols_bounded 30) idCols
  · rw [pwCols_length]
    simp [idCols]
  · exact idCols_bounded
  · rw [packPw_30]
    decide

theorem idCols_getD (j : ℕ) (h : j < 31) : idCols.getD j 0 = 2 ^ j := by
  rw [idCols, List.getD_eq_getElem _ _ (by simpa [idCols] using h)]
  simp

theorem appCols_idCols (v : ℕ) (hv : v < 2 ^ 31) : appCols idCols v = v := by
  apply appCols_eq_of_linear (fun w => w) (fun _ _ => rfl) rfl idCols
  · intro j hj
    exact idCols_getD j (by simpa [idCols] using hj)
  · simpa [idCols] using hv

/-- Every 31-bit state is a fixed point of `lfsr^[2^31 - 1]`: the state
sequence of the PRBS31 register repeats every `2^31 - 1` advances. -/
theorem lfsr_order (v : ℕ) (hv : v < 2 ^ 31) : lfsr^[2 ^ 31 - 1] v = v := by
  have h := appCols_pwCols 30 v hv
  rw [pwCols_30_id, appCols_idCols v hv] at h
  exact h.symm

/-! ### Bridging the `uint32_t` register to the 31-bit dynamics -/

theorem prbsStep_mod (s : ℕ) : prbsStep s % 2 ^ 31 = lfsr (s % 2 ^ 31) := by
  rw [prbsStep, or_mod_two_pow]
  have h1 : (s <<< 1 % 2 ^ 32) % 2 ^ 31 = (s % 2 ^ 31) <<< 1 % 2 ^ 31 := by
    rw [Nat.mod_mod_of_dvd _ (by norm_num), Nat.shiftLeft_eq, Nat.shiftLeft_eq]
    norm_num
  have h2 : prbsNext s % 2 ^ 31 = prbsNext s :=
    Nat.mod_eq_of_lt (lt_of_le_of_lt (prbsNext_le_one s) (by norm_num))
  rw [h1, h2, ← prbsNext_mod s, lfsr]
  apply or_eq_xor_of_even_le_one
  · have : (s % 2 ^ 31) <<< 1 = (s % 2 ^ 31) * 2 := by
      rw [Nat.shiftLeft_eq, pow_one]
    omega
  · exact prbsNext_le_one _

theorem prbsStep_iterate_mod (s n : ℕ) :
    prbsStep^[n] s % 2 ^ 31 = lfsr^[n] (s % 2 ^ 31) := by
  induction n with
  | zero => simp
  | succ n ih =>
    rw [Function.iterate_succ_apply', Function.iterate_succ_apply', prbsStep_mod, ih]

theorem prbsBitSeq_eq_lfsr (s n : ℕ) :
    prbsBitSeq s n = prbsNext (lfsr^[n] (s % 2 ^ 31)) := by
  rw [prbsBitSeq, ← prbsStep_iterate_mod, prbsNext_mod]

/-! ### Reconstructing the state from 31 consecutive output bits -/

theorem prbsNext_lt_two (s : ℕ) : prbsNext s < 2 :=
  lt_of_le_of_lt (prbsNext_le_one s) (by norm_num)

theorem lfsr_testBit_zero (s : ℕ) :
    (lfsr s).testBit 0 = decide (prbsNext s = 1) := by
  rw [lfsr, Nat.testBit_xor]
  have h1 : (s <<< 1 % 2 ^ 31).testBit 0 = false := by
    rw [Nat.testBit_mod_two_pow]
    simp [Nat.testBit_shiftLeft]
  rw [h1, Bool.false_xor, Nat.testBit_zero, Nat.mod_eq_of_lt (prbsNext_lt_two s)]

theorem lfsr_testBit_succ (s : ℕ) (i : ℕ) (h : i + 1 < 31) :
    (lfsr s).testBit (i + 1) = s.testBit i := by
  rw [lfsr, Nat.testBit_xor]
  have h1 : (prbsNext s).testBit (i + 1) = false :=
    testBit_le_one_succ (prbsNext_le_one s) i
  rw [h1, Bool.xor_false, Nat.testBit_mod_two_pow, Nat.testBit_shiftLeft]
  simp [h]

theorem lfsr_iterate_testBit (t : ℕ) :
    ∀ k j, j < k → j < 31 →
      (lfsr^[k] t).testBit j = decide (prbsNext (lfsr^[k - 1 - j] t) = 1) := by
  intro k
  induction k with
  | zero => omega
  | succ k ih =>
    intro j hjk hj31
    rw [Function.iterate_succ_apply']
    cases j with
    | zero =>
      have hidx : k + 1 - 1 - 0 = k := by omega
      rw [hidx, lfsr_testBit_zero]
    | succ i =>
      have hidx : k + 1 - 1 - (i + 1) = k - 1 - i := by omega
      rw [hidx, lfsr_testBit_succ _ i hj31, ih i (by omega) (by omega)]

/-! ### Period arithmetic -/

theorem isPeriod_mul {α : Type*} {f : ℕ → α} {p : ℕ} (h : isPeriod f p) (m : ℕ) :
    ∀ n, f (n + m * p) = f n := by
  induction m with
  | zero => simp
  | succ m ih =>
    intro n
    have : n + (m + 1) * p = (n + m * p) + p := by ring
    rw [this, h (n + m * p), ih n]

theorem isPeriod_one_of_coprime {α : Type*} {f : ℕ → α} {p N : ℕ}
    (hp : isPeriod f p) (hN : isPeriod f N) (hcop : Nat.Coprime p N) (hN1 : 1 < N) :
    isPeriod f 1 := by
  obtain ⟨c, hc⟩ := Nat.exists_mul_emod_eq_one_of_coprime hcop hN1
  have hdecomp : p * c = N * (p * c / N) + 1 := by
    have := Nat.div_add_mod (p * c) N
    omega
  intro n
  have h1 : f (n + 1 + (p * c / N) * N) = f (n + 1) := isPeriod_mul hN _ (n + 1)
  have h2 : f (n + c * p) = f n := isPeriod_mul hp c n
  have h3 : n + 1 + (p * c / N) * N = n + c * p := by
    have e1 : (p * c / N) * N = N * (p * c / N) := Nat.mul_comm _ _
    have e2 : c * p = p * c := Nat.mul_comm _ _
    omega
  rw [← h1, h3, h2]

theorem isPeriod_const {α : Type*} {f : ℕ → α} (h : isPeriod f 1) : ∀ n, f n = f 0 := by
  intro n
  induction n with
  | zero => rfl
  | succ n ih => rw [← ih]; exact h n

/-- The modulus `2^31 - 1` is a (Mersenne) prime. -/
theorem two_pow_31_sub_one_prime : Nat.Prime (2 ^ 31 - 1) := by
  have h := lucas_lehmer_sufficiency 31 (by norm_num) (by norm_num)
  simpa [mersenne] using h

/-! ### A constant output sequence forces the zero state -/

theorem lfsr_iterate_zero (n : ℕ) : lfsr^[n] 0 = 0 := by
  induction n with
  | zero => rfl
  | succ n ih => rw [Function.iterate_succ_apply', ih, lfsr_zero]

theorem prbsNext_all_ones : prbsNext (2 ^ 31 - 1) = 0 := by decide

theorem no_constant_output (t : ℕ) (ht : t < 2 ^ 31) (h0 : t ≠ 0)
    (hc : isPeriod (fun n => prbsNext (lfsr^[n] t)) 1) : False := by
  have hall : ∀ n, prbsNext (lfsr^[n] t) = prbsNext t := by
    intro n
    simpa using isPeriod_const hc n
  have h31 : ∀ j, j < 31 →
      (lfsr^[31] t).testBit j = decide (prbsNext (lfsr^[30 - j] t) = 1) := by
    intro j hj
    have := lfsr_iterate_testBit t 31 j (by omega) hj
    simpa using this
  rcases Nat.le_one_iff_eq_zero_or_eq_one.mp (prbsNext_le_one t) with hb | hb
  · -- constant 0: after 31 steps the state is 0, so t itself is 0
    have hz : lfsr^[31] t = 0 := by
      apply Nat.eq_of_testBit_eq
      intro i
      rcases lt_or_ge i 31 with hi | hi
      · rw [h31 i hi, hall (30 - i), hb]
        simp
      · rw [Nat.zero_testBit, Nat.testBit_lt_two_pow]
        calc lfsr^[31] t < 2 ^ 31 := lfsr_iterate_lt 31 t ht
          _ ≤ 2 ^ i := Nat.pow_le_pow_right (by norm_num) hi
    have hback : lfsr^[2 ^ 31 - 1] t = 0 := by
      have hsplit : 2 ^ 31 - 1 = (2 ^ 31 - 1 - 31) + 31 := by norm_num
      rw [hsplit, Function.iterate_add_apply, hz, lfsr_iterate_zero]
    rw [lfsr_order t ht] at hback
    exact h0 hback
  · -- constant 1: after 31 steps the state is all-ones, whose feedback bit is 0
    have hz : lfsr^[31] t = 2 ^ 31 - 1 := by
      apply Nat.eq_of_testBit_eq
      intro i
      rcases lt_or_ge i 31 with hi | hi
      · rw [h31 i hi, hall (30 - i), hb, Nat.testBit_two_pow_sub_one]
        simp [hi]
      · rw [Nat.testBit_two_pow_sub_one]
        have h1 : (lfsr^[31] t).testBit i = false := by
          apply Nat.testBit_lt_two_pow
          calc lfsr^[31] t < 2 ^ 31 := lfsr_iterate_lt 31 t ht
            _ ≤ 2 ^ i := Nat.pow_le_pow_right (by norm_num) hi
        rw [h1]
        simp
        omega
  -- the next output would be 0, contradicting constant 1
    have := hall 31
    rw [hz, prbsNext_all_ones] at this
    rw [← this] at hb
    exact absurd hb.symm (by norm_num)

/-! ### Claim C4 -/

/-- C4 (amended): the PRBS31 generator advances its LFSR by shifting the
register left by one and injecting the XOR of bit 30 and bit 27 of the
pre-shift value; for every initial register state whose feedback-relevant
low 31 bits are non-zero, the raw bit sequence (ignoring edge
interpolation) repeats exactly every `2^31 - 1` bits and never earlier. -/
theorem prbs31_bitSeq_min_period (s : ℕ) (h : s % 2 ^ 31 ≠ 0) :
    hasMinPeriod (prbsBitSeq s) (2 ^ 31 - 1) := by
  have hseq : ∀ n, prbsBitSeq s n = prbsNext (lfsr^[n] (s % 2 ^ 31)) :=
    prbsBitSeq_eq_lfsr s
  have ht : s % 2 ^ 31 < 2 ^ 31 := Nat.mod_lt _ (by norm_num)
  constructor
  · intro n
    rw [hseq, hseq, Nat.add_comm n (2 ^ 31 - 1), Function.iterate_add_apply,
      lfsr_order _ (lfsr_iterate_lt n _ ht)]
  · intro q hq0 hqN hper
    have hNprime := two_pow_31_sub_one_prime
    have hcop : Nat.Coprime q (2 ^ 31 - 1) := by
      rcases Nat.coprime_or_dvd_of_prime hNprime q with hco | hdvd
      · exact hco.symm
      · exact absurd (Nat.le_of_dvd hq0 hdvd) (by omega)
    have hperN : isPeriod (fun n => prbsNext (lfsr^[n] (s % 2 ^ 31))) (2 ^ 31 - 1) := by
      intro n
      simp only
      rw [Nat.add_comm n (2 ^ 31 - 1), Function.iterate_add_apply,
        lfsr_order _ (lfsr_iterate_lt n _ ht)]
    have hperq : isPeriod (fun n => prbsNext (lfsr^[n] (s % 2 ^ 31))) q := by
      intro n
      have := hper n
      rw [hseq, hseq] at this
      exact this
    have hconst := isPeriod_one_of_coprime hperq hperN hcop (by norm_num)
    exact no_constant_output (s % 2 ^ 31) ht h hconst

/-- C4 witness: seed 1 has non-zero low bits, so its bit sequence attains
the minimal period `2^31 - 1`. -/
theorem prbs31_bitSeq_min_period_witness :
    hasMinPeriod (prbsBitSeq 1) (2 ^ 31 - 1) :=
  prbs31_bitSeq_min_period 1 (by norm_num)

/-- C4 counterexample: the register is a `uint32_t`, and the non-zero
state `2^31` (only bit 31 set) produces the all-zero bit sequence, which
repeats with period 1, not `2^31 - 1`: the claim's "for every non-zero
initial register state" fails on the code. -/
theorem prbs31_nonzero_seed_period_fails :
    (2 ^ 31 : ℕ) ≠ 0 ∧ ¬ hasMinPeriod (prbsBitSeq (2 ^ 31)) (2 ^ 31 - 1) := by
  constructor
  · norm_num
  · intro hmin
    have hstep : prbsStep (2 ^ 31) = 0 := by decide
    have hiter : ∀ n, prbsStep^[n] (2 ^ 31) = if n = 0 then 2 ^ 31 else 0 := by
      intro n
      cases n with
      | zero => simp
      | succ n =>
        rw [Function.iterate_succ_apply, hstep, if_neg (Nat.succ_ne_zero n)]
        induction n with
        | zero => simp
        | succ m ih =>
          rw [Function.iterate_succ_apply]
          have h0 : prbsStep 0 = 0 := by decide
          rw [h0]
          exact ih
    have hconstseq : isPeriod (prbsBitSeq (2 ^ 31)) 1 := by
      intro n
      rw [prbsBitSeq, prbsBitSeq, hiter, hiter, if_neg (by omega)]
      cases n with
      | zero =>
        simp only [if_pos rfl]
        decide
      | succ m => rw [if_neg (by omega)]
    exact hmin.2 1 (by norm_num) (by norm_num) hconstseq

/-! ### Claim C5 -/

theorem nbit_iterate (n : ℕ) : nbitNext^[n] 0 = n % 20 := by
  induction n with
  | zero => simp
  | succ n ih =>
    rw [Function.iterate_succ_apply', ih, nbitNext]
    split <;> omega

/-- C5: the fixed-pattern generator's raw bit sequence is strictly cyclic
with period exactly 20 symbol periods, and one cycle is the literal 20-bit
sequence `00111110101001000101`. -/
theorem enc8b10b_cycle :
    hasMinPeriod enc8b10bBit 20 ∧
      (List.range 20).map enc8b10bBit =
        [false, false, true, true, true, true, true, false, true, false,
         true, false, false, true, false, false, false, true, false, true] := by
  refine ⟨⟨?_, ?_⟩, by decide⟩
  · intro n
    rw [enc8b10bBit, enc8b10bBit, nbit_iterate, nbit_iterate]
    congr 1
    omega
  · intro q hq0 hq20 hper
    have key : ∀ q, q < 20 → 0 < q →
        ¬ ∀ n, n < 20 →
          pattern8b10b.getD ((n + q) % 20) false = pattern8b10b.getD (n % 20) false := by
      decide
    apply key q hq20 hq0
    intro n _
    have h := hper n
    rwa [enc8b10bBit, enc8b10bBit, nbit_iterate, nbit_iterate] at h

/-! ### Claim C6 -/

/-- C6: in both bit-pattern synthesizers, whenever the phase accumulator
crosses below zero at a pattern-advance step, it is reset by adding the
symbol period onto its current (negative) value — the new accumulator is
`(old - sampleperiod) + period`, not `period`. -/
theorem phase_reset_is_additive (scale period sp : ℚ) (stP : PrbsSt) (stE : EncSt) :
    (stP.phase - sp < 0 →
      (prbsLoopStep scale period sp stP).1.phase = stP.phase - sp + period) ∧
    (stE.phase - sp < 0 →
      (encLoopStep scale period sp stE).1.phase = stE.phase - sp + period) := by
  constructor <;> intro h
  · rw [prbsLoopStep, if_pos h]
  · rw [encLoopStep, if_pos h]

/-- C6 witness: a concrete crossing step in each synthesizer. -/
theorem phase_reset_is_additive_witness :
    (prbsLoopStep 1 4 1 ⟨0, false, 0⟩).1.phase = (0 : ℚ) - 1 + 4 ∧
      (encLoopStep 1 4 1 ⟨false, 0, 0⟩).1.phase = (0 : ℚ) - 1 + 4 := by
  have h := phase_reset_is_additive 1 4 1 ⟨0, false, 0⟩ ⟨false, 0, 0⟩
  exact ⟨h.1 (by norm_num), h.2 (by norm_num)⟩

/-! ### Claim C7 -/

unseal Rat.add Rat.sub Rat.mul Rat.inv in
theorem edge_interpolation_scenario_eval :
    GeneratePRBS31 (2 ^ 30) 2 4 1 5 0 (fun _ => 0) = [-1, -1, -1, -1, 1] := by
  decide

/-- C7: when a sample coincides with a logic-level change, the emitted
sample is the previous voltage plus (new voltage − previous voltage) times
`1 − (pre-decrement accumulator / sample period)`, in both synthesizers;
and in the concrete scenario (amplitude 2, symbol period 4 sample periods,
sample period 1, first transition at sample 4) samples 0–3 are `-1` and
sample 4 is exactly `+1`. -/
theorem edge_interpolation_formula :
    (∀ (scale period sp : ℚ) (st : PrbsSt),
      (prbsLoopStep scale period sp st).1.value ≠ st.value →
        (prbsLoopStep scale period sp st).2 =
          (if st.value then scale else -scale) +
            ((if (prbsLoopStep scale period sp st).1.value then scale else -scale) -
              (if st.value then scale else -scale)) * (1 - st.phase / sp)) ∧
    (∀ (scale period sp : ℚ) (st : EncSt),
      (encLoopStep scale period sp st).1.value ≠ st.value →
        (encLoopStep scale period sp st).2 =
          (if st.value then scale else -scale) +
            ((if (encLoopStep scale period sp st).1.value then scale else -scale) -
              (if st.value then scale else -scale)) * (1 - st.phase / sp)) ∧
    GeneratePRBS31 (2 ^ 30) 2 4 1 5 0 (fun _ => 0) = [-1, -1, -1, -1, 1] := by
  refine ⟨?_, ?_, ?_⟩
  · intro scale period sp st hne
    by_cases hc : st.phase - sp < 0
    · rw [prbsLoopStep, if_pos hc] at hne ⊢
      rw [emitSample, if_neg (fun hv => hne (by simpa using hv.symm))]
    · rw [prbsLoopStep, if_neg hc] at hne
      exact absurd rfl hne
  · intro scale period sp st hne
    by_cases hc : st.phase - sp < 0
    · rw [encLoopStep, if_pos hc] at hne ⊢
      rw [emitSample, if_neg (fun hv => hne (by simpa using hv.symm))]
    · rw [encLoopStep, if_neg hc] at hne
      exact absurd rfl hne
  · exact edge_interpolation_scenario_eval

unseal Rat.add Rat.sub Rat.mul Rat.inv in
/-- C7 witness: the formula instantiated at the concrete crossing step of
the scenario (the transition at sample 4: previous level low, new level
high, accumulator 0, fraction 1, sample exactly `+1`). -/
theorem edge_interpolation_formula_witness :
    (prbsLoopStep 1 4 1 ⟨2 ^ 30, false, 0⟩).2 =
      (if (false : Bool) then (1 : ℚ) else -1) +
        ((if (prbsLoopStep 1 4 1 ⟨2 ^ 30, false, 0⟩).1.value then (1 : ℚ) else -1) -
          (if (false : Bool) then (1 : ℚ) else -1)) * (1 - 0 / 1) :=
  edge_interpolation_formula.1 1 4 1 ⟨2 ^ 30, false, 0⟩ (by decide)

/-! ### Claim C8 -/

/-- C8: `GenerateStep(vlo, vhi, period, depth)` returns exactly `depth`
samples, the first `depth/2` (integer division) equal to `vlo` and the
rest equal to `vhi`; `GenerateStep(0, 1, 1, 10)` is `[0,0,0,0,0,1,1,1,1,1]`. -/
theorem generateStep_spec (vlo vhi : ℚ) (ts : ℤ) (depth : ℕ) :
    (GenerateStep vlo vhi ts depth).samples.length = depth ∧
    (∀ i, i < depth / 2 → (GenerateStep vlo vhi ts depth).samples.getD i 0 = vlo) ∧
    (∀ i, depth / 2 ≤ i → i < depth →
      (GenerateStep vlo vhi ts depth).samples.getD i 0 = vhi) ∧
    (GenerateStep 0 1 1 10).samples = [0, 0, 0, 0, 0, 1, 1, 1, 1, 1] := by
  refine ⟨by simp [GenerateStep], ?_, ?_, by decide⟩
  · intro i hi
    have hlen : i < ((List.range depth).map
        fun j => if j < depth / 2 then vlo else vhi).length := by
      simp only [List.length_map, List.length_range]
      exact lt_of_lt_of_le hi (Nat.div_le_self _ _)
    rw [GenerateStep, List.getD_eq_getElem _ _ hlen]
    simp [hi]
  · intro i h1 h2
    have hlen : i < ((List.range depth).map
        fun j => if j < depth / 2 then vlo else vhi).length := by
      simp only [List.length_map, List.length_range]
      exact h2
    rw [GenerateStep, List.getD_eq_getElem _ _ hlen]
    simp [Nat.not_lt_of_ge h1]

/-- C8 witness: the bounded clauses instantiated in the concrete scenario. -/
theorem generateStep_spec_witness :
    (GenerateStep 0 1 1 10).samples.getD 2 0 = 0 ∧
      (GenerateStep 0 1 1 10).samples.getD 7 0 = 1 := by
  have h := generateStep_spec 0 1 1 10
  exact ⟨h.2.1 2 (by norm_num), h.2.2.1 7 (by norm_num) (by norm_num)⟩

/-! ### Claim C9 -/

theorem addNoise_length (stddev : ℚ) (g : ℕ → ℚ) :
    ∀ (i0 : ℕ) (l : List ℚ), (addNoise stddev g i0 l).length = l.length := by
  intro i0 l
  induction l generalizing i0 with
  | nil => rfl
  | cons s rest ih => simp [addNoise, ih]

theorem addNoise_getD (stddev : ℚ) (g : ℕ → ℚ) :
    ∀ (l : List ℚ) (i0 i : ℕ), i < l.length →
      (addNoise stddev g i0 l).getD i 0 = l.getD i 0 + stddev * g (i0 + i) := by
  intro l
  induction l with
  | nil => intro i0 i h; simp at h
  | cons s rest ih =>
    intro i0 i h
    cases i with
    | zero => simp [addNoise]
    | succ i =>
      have h' : i < rest.length := by simpa using h
      have := ih (i0 + 1) i h'
      simp only [addNoise, List.getD_cons_succ]
      rw [this]
      have harg : i0 + 1 + i = i0 + (i + 1) := by omega
      rw [harg]

theorem addNoise_zero_stddev (g : ℕ → ℚ) :
    ∀ (i0 : ℕ) (l : List ℚ), addNoise 0 g i0 l = l := by
  intro i0 l
  induction l generalizing i0 with
  | nil => rfl
  | cons s rest ih => simp [addNoise, ih]

/-- C9: the fast (noise-only) degradation path keeps the sample count,
adds exactly one noise draw (`stddev` times the `i`-th unit draw) to the
`i`-th sample in place, and with standard deviation 0 it is the identity:
output samples equal input samples exactly. -/
theorem degrade_fast_path_spec (stddev : ℚ) (g : ℕ → ℚ) (l : List ℚ) :
    (DegradeSerialDataNoise stddev g l).length = l.length ∧
    (∀ i, i < l.length →
      (DegradeSerialDataNoise stddev g l).getD i 0 = l.getD i 0 + stddev * g i) ∧
    DegradeSerialDataNoise 0 g l = l := by
  refine ⟨addNoise_length stddev g 0 l, ?_, addNoise_zero_stddev g 0 l⟩
  intro i hi
  have := addNoise_getD stddev g l 0 i hi
  simpa using this

/-- C9 witness: concrete two-sample run with unit draws. -/
theorem degrade_fast_path_spec_witness :
    (DegradeSerialDataNoise 1 (fun i => (i : ℚ)) [2, 3]).length = 2 ∧
      (DegradeSerialDataNoise 1 (fun i => (i : ℚ)) [2, 3]).getD 1 0 = 3 + 1 * 1 ∧
      DegradeSerialDataNoise 0 (fun i => (i : ℚ)) [2, 3] = [2, 3] := by
  have h := degrade_fast_path_spec 1 (fun i => (i : ℚ)) [2, 3]
  have h0 := degrade_fast_path_spec 0 (fun i => (i : ℚ)) [2, 3]
  refine ⟨h.1, ?_, h0.2.2⟩
  have := h.2.1 1 (by norm_num)
  simpa using this

/-! ### Claim C1 -/

/-- C1 (amended): two generation calls with identically-seeded noise
source (same unit-draw stream `g` and standard deviation), identical
parameters, and the same C-library `rand()` value seeding the PRBS
register produce identical output, sample for sample. -/
theorem generatePRBS31_deterministic
    (seedA seedB : ℕ) (ampA ampB perA perB spA spB sdA sdB : ℚ)
    (dA dB : ℕ) (gA gB : ℕ → ℚ)
    (hseed : seedA = seedB) (hamp : ampA = ampB) (hper : perA = perB)
    (hsp : spA = spB) (hd : dA = dB) (hsd : sdA = sdB) (hg : gA = gB) :
    GeneratePRBS31 seedA ampA perA spA dA sdA gA =
      GeneratePRBS31 seedB ampB perB spB dB sdB gB := by
  subst hseed hamp hper hsp hd hsd hg
  rfl

/-- C1 witness: a concrete pair of identical calls. -/
theorem generatePRBS31_deterministic_witness :
    GeneratePRBS31 5 2 4 1 3 0 (fun _ => 0) = GeneratePRBS31 5 2 4 1 3 0 (fun _ => 0) :=
  generatePRBS31_deterministic 5 5 2 2 4 4 1 1 0 0 3 3 (fun _ => 0) (fun _ => 0)
    rfl rfl rfl rfl rfl rfl rfl

unseal Rat.add Rat.sub Rat.mul Rat.inv in
/-- C1 counterexample: two calls with the same noise source (standard
deviation 0, same draw stream) and identical parameters (amplitude 2,
period 1, sample period 1, depth 2) produce different waveforms, because
the PRBS register is seeded from the process-global C `rand()`, not from
the noise source: `rand()` state 0 versus `2^30` changes sample 1. -/
theorem generatePRBS31_not_determined_by_noise_seed :
    GeneratePRBS31 0 2 1 1 2 0 (fun _ => 0) ≠
      GeneratePRBS31 (2 ^ 30) 2 1 1 2 0 (fun _ => 0) := by
  decide

/-! ### Claim C2 -/

/-- C2 (amended): whenever `0 ≤ groupDelaySamples ≤ depth` (and the depth
fits in `size_t`), the degraded output length equals
`depth − groupDelaySamples`.  The nonnegativity itself is not enforced by
the code (see the counterexample). -/
theorem degraded_output_length (buf : ℕ → ℚ) (fftscale stddev : ℚ) (g : ℕ → ℚ)
    (depth : ℕ) (gds : ℤ) (h0 : 0 ≤ gds) (h1 : gds ≤ (depth : ℤ))
    (h2 : depth < 2 ^ 64) :
    ((DegradeSerialDataTrim buf fftscale stddev g depth gds).length : ℤ) =
      (depth : ℤ) - gds := by
  have hlen : (DegradeSerialDataTrim buf fftscale stddev g depth gds).length =
      degradedLength depth gds := by
    simp [DegradeSerialDataTrim]
  rw [hlen, degradedLength, istartOf]
  have hp : (2 : ℤ) ^ 64 = 18446744073709551616 := by norm_num
  have hn : (2 : ℕ) ^ 64 = 18446744073709551616 := by norm_num
  have hmod : gds % (2 : ℤ) ^ 64 = gds := by
    rw [Int.emod_eq_of_lt h0 (by omega)]
  rw [hmod, hn]
  omega

/-- C2 witness: depth 10, group delay 3 samples, output length 7. -/
theorem degraded_output_length_witness :
    ((DegradeSerialDataTrim (fun _ => 0) 1 0 (fun _ => 0) 10 3).length : ℤ) =
      (10 : ℤ) - 3 :=
  degraded_output_length (fun _ => 0) 1 0 (fun _ => 0) 10 3 (by norm_num)
    (by norm_num) (by norm_num)

/-- C2 counterexample: nothing makes `groupDelaySamples` nonnegative — a
channel whose group delay at the centre bin is `-2 fs` with a 1 fs sample
period yields `groupDelaySamples = -2 < 0`, refuting
"`groupDelaySamples` is always ≥ 0". -/
theorem groupDelaySamples_can_be_negative :
    groupDelaySamplesOf (-2) 1 = -2 ∧ ¬ (0 ≤ groupDelaySamplesOf (-2) 1) := by
  constructor
  · decide
  · decide

/-! ### Claim C3 -/

/-- C3 (amended): the code computes `groupDelaySamples` by C++ integer
division of the femtosecond group delay by the sample period, which
truncates the quotient toward zero — for nonnegative group delay this is
the floor of the exact quotient, not rounding to nearest. -/
theorem groupDelaySamples_truncates (gdFs ts : ℤ) (h1 : 0 ≤ gdFs) (h2 : 0 < ts) :
    groupDelaySamplesOf gdFs ts = ⌊(gdFs : ℚ) / (ts : ℚ)⌋ := by
  rw [groupDelaySamplesOf, Int.tdiv_eq_ediv h1 h2.le]
  have hts : ts = ((ts.toNat : ℕ) : ℤ) := (Int.toNat_of_nonneg h2.le).symm
  rw [hts]
  rw [show (((ts.toNat : ℕ) : ℤ) : ℚ) = ((ts.toNat : ℕ) : ℚ) by push_cast; rfl]
  exact (Rat.floor_intCast_div_natCast gdFs ts.toNat).symm

/-- C3 witness: 3 fs group delay over 2 fs sample period gives `⌊3/2⌋ = 1`. -/
theorem groupDelaySamples_truncates_witness :
    groupDelaySamplesOf 3 2 = ⌊((3 : ℤ) : ℚ) / ((2 : ℤ) : ℚ)⌋ :=
  groupDelaySamples_truncates 3 2 (by norm_num) (by norm_num)

/-- C3 counterexample: at group delay 3 fs and sample period 2 fs the code
computes `3 / 2 = 1` (truncation), while the specified
`round(groupDelaySeconds / samplePeriod)` is `round(1.5) = 2`. -/
theorem groupDelaySamples_ne_round :
    groupDelaySamplesOf 3 2 = 1 ∧ roundGroupDelaySamples 3 2 = 2 ∧
      groupDelaySamplesOf 3 2 ≠ roundGroupDelaySamples 3 2 := by
  have hr : roundGroupDelaySamples 3 2 = 2 := by
    rw [roundGroupDelaySamples, round_eq]
    norm_num
  refine ⟨by decide, hr, ?_⟩
  rw [hr]
  decide

/-! ### Claim C10 -/

theorem emitSample_bounds (scale sp lp : ℚ) (last value : Bool)
    (hscale : 0 ≤ scale) (hsp : 0 < sp) (hlp0 : 0 ≤ lp)
    (hlps : last ≠ value → lp < sp) :
    -scale ≤ emitSample scale sp lp last value ∧
      emitSample scale sp lp last value ≤ scale := by
  rw [emitSample]
  by_cases hev : last = value
  · rw [if_pos hev]
    cases value <;> simp <;> linarith
  · rw [if_neg hev]
    have hfrac0 : 0 < 1 - lp / sp := by
      have : lp / sp < 1 := (div_lt_one hsp).mpr (hlps hev)
      linarith
    have hfrac1 : 1 - lp / sp ≤ 1 := by
      have : 0 ≤ lp / sp := div_nonneg hlp0 hsp.le
      linarith
    cases hl : last <;> cases hv : value
    · exact absurd rfl (hl ▸ hv ▸ hev)
    · constructor <;> simp <;> nlinarith
    · constructor <;> simp <;> nlinarith
    · exact absurd rfl (hl ▸ hv ▸ hev)

theorem prbsGen_bounds (scale period sp : ℚ)
    (hscale : 0 ≤ scale) (hsp : 0 < sp) (hps : sp ≤ period) :
    ∀ (n : ℕ) (st : PrbsSt), 0 ≤ st.phase →
      ∀ x ∈ prbsGen scale period sp st n, -scale ≤ x ∧ x ≤ scale := by
  intro n
  induction n with
  | zero => intro st _ x hx; simp [prbsGen] at hx
  | succ n ih =>
    intro st hst x hx
    rw [prbsGen] at hx
    rcases List.mem_cons.mp hx with hx | hx
    · subst hx
      by_cases hc : st.phase - sp < 0
      · rw [prbsLoopStep, if_pos hc]
        exact emitSample_bounds scale sp st.phase st.value _ hscale hsp hst
          (fun _ => by linarith)
      · rw [prbsLoopStep, if_neg hc]
        exact emitSample_bounds scale sp st.phase st.value st.value hscale hsp hst
          (fun h => absurd rfl h)
    · apply ih (prbsLoopStep scale period sp st).1 _ x hx
      by_cases hc : st.phase - sp < 0
      · rw [prbsLoopStep, if_pos hc]
        simp only
        linarith
      · rw [prbsLoopStep, if_neg hc]
        simp only
        linarith

theorem encGen_bounds (scale period sp : ℚ)
    (hscale : 0 ≤ scale) (hsp : 0 < sp) (hps : sp ≤ period) :
    ∀ (n : ℕ) (st : EncSt), 0 ≤ st.phase →
      ∀ x ∈ encGen scale period sp st n, -scale ≤ x ∧ x ≤ scale := by
  intro n
  induction n with
  | zero => intro st _ x hx; simp [encGen] at hx
  | succ n ih =>
    intro st hst x hx
    rw [encGen] at hx
    rcases List.mem_cons.mp hx with hx | hx
    · subst hx
      by_cases hc : st.phase - sp < 0
      · rw [encLoopStep, if_pos hc]
        exact emitSample_bounds scale sp st.phase st.value _ hscale hsp hst
          (fun _ => by linarith)
      · rw [encLoopStep, if_neg hc]
        exact emitSample_bounds scale sp st.phase st.value st.value hscale hsp hst
          (fun h => absurd rfl h)
    · apply ih (encLoopStep scale period sp st).1 _ x hx
      by_cases hc : st.phase - sp < 0
      · rw [encLoopStep, if_pos hc]
        simp only
        linarith
      · rw [encLoopStep, if_neg hc]
        simp only
        linarith

/-- C10 (amended): for every bit-pattern generation call with nonnegative
amplitude, positive sample period, symbol period at least the sample
period, zero noise standard deviation and degradation disabled, every
output sample of both synthesizers lies in `[-amplitude/2, amplitude/2]`. -/
theorem generated_samples_bounded (amplitude period sp : ℚ) (seed depth : ℕ)
    (g : ℕ → ℚ) (hamp : 0 ≤ amplitude) (hsp : 0 < sp) (hps : sp ≤ period) :
    (∀ x ∈ GeneratePRBS31 seed amplitude period sp depth 0 g,
      -(amplitude / 2) ≤ x ∧ x ≤ amplitude / 2) ∧
    (∀ x ∈ Generate8b10b amplitude period sp depth 0 g,
      -(amplitude / 2) ≤ x ∧ x ≤ amplitude / 2) := by
  have hscale : 0 ≤ amplitude / 2 := by linarith
  have hphase : (0 : ℚ) ≤ period := by linarith
  constructor
  · intro x hx
    rw [GeneratePRBS31, DegradeSerialDataNoise, addNoise_zero_stddev] at hx
    exact prbsGen_bounds (amplitude / 2) period sp hscale hsp hps depth
      ⟨seed, false, period⟩ hphase x hx
  · intro x hx
    rw [Generate8b10b, DegradeSerialDataNoise, addNoise_zero_stddev] at hx
    exact encGen_bounds (amplitude / 2) period sp hscale hsp hps depth
      ⟨false, 0, period⟩ hphase x hx

unseal Rat.add Rat.sub Rat.mul Rat.inv in
/-- C10 witness: a concrete in-range sample of each generator. -/
theorem generated_samples_bounded_witness :
    (-((2 : ℚ) / 2) ≤ -1 ∧ (-1 : ℚ) ≤ 2 / 2) ∧
      (-((2 : ℚ) / 2) ≤ -1 ∧ (-1 : ℚ) ≤ 2 / 2) := by
  have h := generated_samples_bounded 2 4 1 0 1 (fun _ => 0)
    (by norm_num) (by norm_num) (by norm_num)
  exact ⟨h.1 (-1) (by decide), h.2 (-1) (by decide)⟩

unseal Rat.add Rat.sub Rat.mul Rat.inv in
/-- C10 counterexample: with negative amplitude `-2` the claimed interval
`[-amplitude/2, amplitude/2] = [1, -1]` is empty, yet the call emits the
sample `1`: the claim fails without a nonnegativity assumption on the
amplitude. -/
theorem generated_samples_bounded_needs_nonneg_amplitude :
    GeneratePRBS31 0 (-2) 1 1 1 0 (fun _ => 0) = [1] ∧
      ¬ (-((-2 : ℚ) / 2) ≤ 1 ∧ (1 : ℚ) ≤ (-2) / 2) := by
  constructor
  · decide
  · intro h
    have := h.2
    norm_num at this
